import Mathlib

/-!
# Verification of the motion distributed state engine

Shallow embedding of the repository's Rust sources:

* `src/motionstate/src/lib.rs` — the length-prefixed binary value codec
  (`serialize_value`, `serialize_dict`, `extract_next_slice`,
  `deserialize_value`) and the `StateAccessor` orchestrator.
* `src/rustystate/src/lib.rs` — an earlier decoder variant whose container
  loops slice the input without bounds checks.
* `src/src/lib.rs` — the `StateAccessor` orchestrator variant whose local
  cache stores deserialized values; the write path (lock retry loop,
  optimistic cache/version mutation, atomic pipeline commit, rollback) is
  modelled here with the external Redis store, the redlock manager and the
  value codecs treated as oracle parameters at their interface boundary.

Bytes are modelled as `List Nat` (each entry one octet).  Python strings are
modelled by their UTF-8 byte sequences; two Python strings are observably
equal iff those sequences are equal.  Machine integers use `Nat`/`Int` with
explicit range conditions.
-/

/-! ## Byte-level primitives -/

/-- `u64::from_le_bytes`: value of a little-endian byte list (byte `i` has
weight `256^i`).  The source applies it to exactly eight bytes. -/
def leU64 (bs : List Nat) : Nat :=
  bs.foldr (fun b acc => b + 256 * acc) 0

/-- `(n as u64).to_le_bytes()`: the eight little-endian bytes of `n`
(reduced modulo `2^64`, as the `as u64` cast does). -/
def u64le (n : Nat) : List Nat :=
  [n % 256, n / 256 % 256, n / 256 ^ 2 % 256, n / 256 ^ 3 % 256,
   n / 256 ^ 4 % 256, n / 256 ^ 5 % 256, n / 256 ^ 6 % 256, n / 256 ^ 7 % 256]

theorem u64le_length (n : Nat) : (u64le n).length = 8 := rfl

theorem leU64_u64le (n : Nat) : leU64 (u64le n) = n % 2 ^ 64 := by
  simp only [leU64, u64le, List.foldr]
  omega

/-! ## Decimal representation and parsing of integers

Python's `str(int)` (used by the encoder) and Rust's `str::parse::<i64>`
(used by the decoder).  The representation function is given fuel so that it
reduces definitionally; one extra unit of fuel per digit is ample. -/

/-- Decimal digits of `n`, most significant first, as ASCII bytes.
`fuel` bounds the recursion depth; any `fuel > n` is sufficient. -/
def natDecReprAux : Nat → Nat → List Nat
  | 0, _ => []
  | f + 1, n => if n < 10 then [48 + n] else natDecReprAux f (n / 10) ++ [48 + n % 10]

/-- ASCII bytes of Python's `str(n)` for a natural number. -/
def natDecRepr (n : Nat) : List Nat := natDecReprAux (n + 1) n

/-- ASCII bytes of Python's `str(n)` for an integer (minus sign is byte 45). -/
def intDecRepr (n : Int) : List Nat :=
  if n < 0 then 45 :: natDecRepr (-n).toNat else natDecRepr n.toNat

/-- Is `b` the ASCII code of a decimal digit? -/
def isDigitByte (b : Nat) : Bool := 48 ≤ b && b ≤ 57

/-- Value of a nonempty all-digit ASCII byte list (`none` otherwise):
the digit-string core of Rust's integer `FromStr`. -/
def digitsVal? (bs : List Nat) : Option Nat :=
  if bs = [] then none
  else if bs.all isDigitByte then some (bs.foldl (fun acc b => acc * 10 + (b - 48)) 0)
  else none

/-- Rust `str::parse::<i64>` on UTF-8 bytes: optional `+`/`-` sign followed by
at least one digit, value within `i64` range.  All accepted bytes are ASCII,
so parsing the byte list agrees with parsing the decoded string. -/
def parseI64? (bs : List Nat) : Option Int :=
  match bs with
  | [] => none
  | b :: rest =>
    if b = 43 then
      (digitsVal? rest).bind fun m =>
        if m ≤ 2 ^ 63 - 1 then some (m : Int) else none
    else if b = 45 then
      (digitsVal? rest).bind fun m =>
        if m ≤ 2 ^ 63 then some (-(m : Int)) else none
    else
      (digitsVal? (b :: rest)).bind fun m =>
        if m ≤ 2 ^ 63 - 1 then some (m : Int) else none

theorem digitsVal?_append_digit (bs : List Nat) (d : Nat) (m : Nat)
    (hd : isDigitByte d = true) (h : digitsVal? bs = some m) :
    digitsVal? (bs ++ [d]) = some (m * 10 + (d - 48)) := by
  unfold digitsVal? at h ⊢
  by_cases hne : bs = []
  · simp [hne] at h
  · simp only [hne, if_false] at h
    by_cases hall : bs.all isDigitByte
    · simp only [hall, if_true, Option.some.injEq] at h
      have hne2 : bs ++ [d] ≠ [] := by simp
      have hall2 : (bs ++ [d]).all isDigitByte = true := by
        simp [List.all_append, hall, hd]
      simp [hne2, hall2, List.foldl_append, h]
    · simp [hall] at h

theorem natDecReprAux_spec (fuel n : Nat) (h : n < fuel) :
    digitsVal? (natDecReprAux fuel n) = some n := by
  induction fuel generalizing n with
  | zero => omega
  | succ f ih =>
    unfold natDecReprAux
    by_cases h10 : n < 10
    · have hd : isDigitByte (48 + n) = true := by
        unfold isDigitByte; simp; omega
      simp only [h10, if_true]
      unfold digitsVal?
      simp [hd]
    · simp only [h10, if_false]
      have hrec : digitsVal? (natDecReprAux f (n / 10)) = some (n / 10) := by
        apply ih; omega
      have hd : isDigitByte (48 + n % 10) = true := by
        unfold isDigitByte; simp; omega
      have := digitsVal?_append_digit _ (48 + n % 10) (n / 10) hd hrec
      rw [this]
      congr 1
      omega

theorem digitsVal?_natDecRepr (n : Nat) : digitsVal? (natDecRepr n) = some n :=
  natDecReprAux_spec (n + 1) n (Nat.lt_succ_self n)

theorem natDecReprAux_digits (fuel n : Nat) :
    ∀ b ∈ natDecReprAux fuel n, 48 ≤ b ∧ b ≤ 57 := by
  induction fuel generalizing n with
  | zero => intro b hb; simp [natDecReprAux] at hb
  | succ f ih =>
    intro b hb
    unfold natDecReprAux at hb
    by_cases h10 : n < 10
    · simp [h10] at hb; omega
    · simp only [h10, if_false, List.mem_append, List.mem_singleton] at hb
      rcases hb with hb | hb
      · exact ih (n / 10) b hb
      · subst hb; constructor <;> omega

theorem natDecRepr_digits (n : Nat) : ∀ b ∈ natDecRepr n, 48 ≤ b ∧ b ≤ 57 :=
  natDecReprAux_digits (n + 1) n

theorem natDecReprAux_ne_nil (fuel n : Nat) (h : n < fuel) :
    natDecReprAux fuel n ≠ [] := by
  cases fuel with
  | zero => omega
  | succ f =>
    unfold natDecReprAux
    by_cases h10 : n < 10 <;> simp [h10]

theorem natDecRepr_ne_nil (n : Nat) : natDecRepr n ≠ [] :=
  natDecReprAux_ne_nil (n + 1) n (Nat.lt_succ_self n)

/-- The decoder's integer parse recovers the encoder's decimal form, for any
integer in the `i64` range. -/
theorem parseI64?_intDecRepr (n : Int) (hlo : -(2 ^ 63) ≤ n) (hhi : n < 2 ^ 63) :
    parseI64? (intDecRepr n) = some n := by
  unfold intDecRepr
  by_cases hneg : n < 0
  · simp only [hneg, if_true]
    show ((digitsVal? (natDecRepr (-n).toNat)).bind fun m =>
        if m ≤ 2 ^ 63 then some (-(m : Int)) else none) = some n
    rw [digitsVal?_natDecRepr]
    have hle : (-n).toNat ≤ 2 ^ 63 := by omega
    rw [show ((some ((-n).toNat) : Option Nat).bind fun m =>
        if m ≤ 2 ^ 63 then some (-(m : Int)) else none) =
        (if (-n).toNat ≤ 2 ^ 63 then some (-(((-n).toNat : Nat) : Int)) else none) from rfl,
      if_pos hle]
    congr 1
    omega
  · simp only [hneg, if_false]
    have hd := natDecRepr_digits n.toNat
    have hne := natDecRepr_ne_nil n.toNat
    have hle : n.toNat ≤ 2 ^ 63 - 1 := by omega
    match hrep : natDecRepr n.toNat with
    | [] => exact absurd hrep hne
    | b :: rest =>
      have hb : 48 ≤ b ∧ b ≤ 57 := hd b (by rw [hrep]; exact List.mem_cons_self b rest)
      have hparse : digitsVal? (b :: rest) = some n.toNat := by
        rw [← hrep]; exact digitsVal?_natDecRepr n.toNat
      have h43 : ¬(b = 43) := by omega
      have h45 : ¬(b = 45) := by omega
      simp only [parseI64?, h43, h45, if_false]
      rw [hparse]
      rw [show ((some n.toNat : Option Nat).bind fun m =>
          if m ≤ 2 ^ 63 - 1 then some ((m : Nat) : Int) else none) =
          (if n.toNat ≤ 2 ^ 63 - 1 then some ((n.toNat : Nat) : Int) else none) from rfl,
        if_pos hle]
      congr 1
      omega

theorem intDecRepr_head_digit_or_minus (n : Int) :
    ∃ b rest, intDecRepr n = b :: rest ∧ (b = 45 ∨ (48 ≤ b ∧ b ≤ 57)) := by
  unfold intDecRepr
  by_cases hneg : n < 0
  · exact ⟨45, natDecRepr (-n).toNat, by simp [hneg], Or.inl rfl⟩
  · simp only [hneg, if_false]
    match hrep : natDecRepr n.toNat with
    | [] => exact absurd hrep (natDecRepr_ne_nil n.toNat)
    | b :: rest =>
      have hb := natDecRepr_digits n.toNat b (by rw [hrep]; exact List.mem_cons_self b rest)
      exact ⟨b, rest, rfl, Or.inr hb⟩

theorem intDecRepr_ascii (n : Int) : ∀ b ∈ intDecRepr n, b < 128 := by
  intro b hb
  unfold intDecRepr at hb
  by_cases hneg : n < 0
  · simp only [hneg, if_true, List.mem_cons] at hb
    rcases hb with hb | hb
    · omega
    · have := natDecRepr_digits (-n).toNat b hb; omega
  · simp only [hneg, if_false] at hb
    have := natDecRepr_digits n.toNat b hb; omega

/-! ## UTF-8 validity

Rust's `std::str::from_utf8` succeeds exactly on well-formed UTF-8: the
decoder's scalar lane first checks this, falling back to the injected byte
codec otherwise.  The table below is the standard UTF-8 acceptance automaton
(no overlong forms, no surrogates, max U+10FFFF). -/

/-- Is `b` a UTF-8 continuation byte (`0x80..=0xBF`)? -/
def isContByte (b : Nat) : Bool := 128 ≤ b && b ≤ 191

/-- Fuel-bounded core of the UTF-8 validity check.  A lead byte determines
how many continuation bytes follow (`k`) and the admissible range of the
first continuation byte (`lo..hi`, which excludes overlong forms, surrogates
and code points above U+10FFFF, exactly as `std::str::from_utf8` does).
Any `fuel > bs.length` is sufficient. -/
def utf8ValidAux : Nat → List Nat → Bool
  | 0, _ => false
  | _ + 1, [] => true
  | fuel + 1, b :: rest =>
    if b < 128 then utf8ValidAux fuel rest
    else if b < 194 then false
    else if 244 < b then false
    else
      let k := if b ≤ 223 then 1 else if b ≤ 239 then 2 else 3
      let lo := if b = 224 then 160 else if b = 240 then 144 else 128
      let hi := if b = 237 then 159 else if b = 244 then 143 else 191
      match rest with
      | [] => false
      | b2 :: r2 =>
        if lo ≤ b2 && b2 ≤ hi then
          if k = 1 then utf8ValidAux fuel r2
          else
            match r2 with
            | [] => false
            | b3 :: r3 =>
              if isContByte b3 then
                if k = 2 then utf8ValidAux fuel r3
                else
                  match r3 with
                  | [] => false
                  | b4 :: r4 =>
                    if isContByte b4 then utf8ValidAux fuel r4 else false
              else false
        else false

/-- Does `bs` consist of well-formed UTF-8 sequences?  Mirrors the byte-level
acceptance condition of `std::str::from_utf8`. -/
def utf8Valid (bs : List Nat) : Bool := utf8ValidAux (bs.length + 1) bs

theorem utf8ValidAux_of_ascii :
    ∀ (fuel : Nat) (bs : List Nat), bs.length < fuel → (∀ b ∈ bs, b < 128) →
      utf8ValidAux fuel bs = true := by
  intro fuel
  induction fuel with
  | zero => intro bs h; omega
  | succ f ih =>
    intro bs hlen h
    match bs with
    | [] => rfl
    | b :: rest =>
      have hb : b < 128 := h b (List.mem_cons_self b rest)
      unfold utf8ValidAux
      simp only [hb, if_true]
      exact ih rest (by simpa using Nat.lt_of_succ_lt_succ hlen)
        fun x hx => h x (List.mem_cons_of_mem b hx)

/-- Pure-ASCII byte lists are valid UTF-8. -/
theorem utf8Valid_of_ascii (bs : List Nat) (h : ∀ b ∈ bs, b < 128) :
    utf8Valid bs = true :=
  utf8ValidAux_of_ascii (bs.length + 1) bs (Nat.lt_succ_self _) h

/-! ## The float lane as an interface

In `serialize_value` an `f64` is encoded as Python's `str(float)`; in
`deserialize_value` the scalar lane tries Rust's `str::parse::<f64>` after the
integer parse fails.  Both functions live in the host runtimes (CPython /
Rust std), outside this repository, so the development is parameterized by a
`FloatModel`: an abstract float carrier together with the repr/parse pair and
the facts about them the codec relies on (each true of the real pair):
`str(f)` parses back to `f`; `str(f)` is never a valid integer literal; and
`str(f)` is nonempty ASCII not beginning with a container marker byte. -/

structure FloatModel where
  F : Type
  beqF : F → F → Bool
  beqF_iff : ∀ a b, beqF a b = true ↔ a = b
  ofRepr : List Nat → Option F
  toRepr : F → List Nat
  ofRepr_toRepr : ∀ f, ofRepr (toRepr f) = some f
  toRepr_not_int : ∀ f, parseI64? (toRepr f) = none
  toRepr_head : ∀ f, ∃ b rest, toRepr f = b :: rest ∧ b ≠ 1 ∧ b ≠ 2
  toRepr_utf8 : ∀ f, utf8Valid (toRepr f) = true

/-- ASCII bytes of the text `inf`. -/
def infBytes : List Nat := [105, 110, 102]

/-- A small concrete `FloatModel` used to instantiate witnesses: its only
float is infinity, whose Python repr is `inf` and which Rust's float parse
accepts.  (`str(float('inf')) == 'inf'` and `"inf".parse::<f64>()` succeeds.) -/
def infFloatModel : FloatModel where
  F := Unit
  beqF := fun _ _ => true
  beqF_iff := fun a b => ⟨fun _ => by cases a; cases b; rfl, fun _ => rfl⟩
  ofRepr := fun bs => if bs = infBytes then some () else none
  toRepr := fun _ => infBytes
  ofRepr_toRepr := fun _ => if_pos rfl
  toRepr_not_int := fun _ => rfl
  toRepr_head := fun _ => ⟨105, [110, 102], rfl, by omega, by omega⟩
  toRepr_utf8 := fun _ => rfl

/-! ## The dynamic value model

`src/motionstate/src/lib.rs` serializes Python objects directly; the
structural subset the spec's data model names (§3 Value) is integers,
floats, UTF-8 strings, lists and dicts.  Lists and dict entry sequences are
mutually inductive with the value type so that all functions below are
plain structural recursions. -/

mutual
inductive PyVal (F : Type) where
  | intV (n : Int)
  | floatV (f : F)
  | strV (s : List Nat)
  | listV (xs : PyValList F)
  | dictV (kvs : PyValPairs F)

inductive PyValList (F : Type) where
  | nil
  | cons (x : PyVal F) (xs : PyValList F)

inductive PyValPairs (F : Type) where
  | nil
  | cons (k v : PyVal F) (rest : PyValPairs F)
end

/-! Structural equality test on values, modelling Python `==` on the
structural subset.  (Python additionally identifies numerically equal
ints and floats; no claim here exercises mixed-type dict keys, and the
decoder only compares keys produced by the codec itself.) -/
mutual
def pyBeq (FM : FloatModel) : PyVal FM.F → PyVal FM.F → Bool
  | .intV a, .intV b => a == b
  | .floatV a, .floatV b => FM.beqF a b
  | .strV a, .strV b => a == b
  | .listV xs, .listV ys => pyBeqList FM xs ys
  | .dictV a, .dictV b => pyBeqPairs FM a b
  | _, _ => false

def pyBeqList (FM : FloatModel) : PyValList FM.F → PyValList FM.F → Bool
  | .nil, .nil => true
  | .cons x xs, .cons y ys => pyBeq FM x y && pyBeqList FM xs ys
  | _, _ => false

def pyBeqPairs (FM : FloatModel) : PyValPairs FM.F → PyValPairs FM.F → Bool
  | .nil, .nil => true
  | .cons k v r, .cons k2 v2 r2 =>
    pyBeq FM k k2 && pyBeq FM v v2 && pyBeqPairs FM r r2
  | _, _ => false
end

/-- Python hashability of a decoded value: lists and dicts are unhashable and
cannot be dict keys (`dict.set_item` raises on them). -/
def pyHashable {F : Type} : PyVal F → Bool
  | .listV _ => false
  | .dictV _ => false
  | _ => true

/-- Replace the value of an existing equal key (keeping the original key and
its position, as CPython dicts do) or append a new entry. -/
def setItemGo (FM : FloatModel) : PyValPairs FM.F → PyVal FM.F → PyVal FM.F → PyValPairs FM.F
  | .nil, k, v => .cons k v .nil
  | .cons k0 v0 r, k, v =>
    if pyBeq FM k0 k then .cons k0 v r else .cons k0 v0 (setItemGo FM r k v)

/-- `PyDict::set_item`: fails on unhashable keys, otherwise inserts or
replaces preserving insertion order. -/
def setItem (FM : FloatModel) (kvs : PyValPairs FM.F) (k v : PyVal FM.F) :
    Option (PyValPairs FM.F) :=
  if pyHashable k then some (setItemGo FM kvs k v) else none

/-! ## The motionstate codec (`src/motionstate/src/lib.rs`) -/

/-- Wire markers (`MARKER_LIST`, `MARKER_DICT`). -/
def MARKER_LIST : Nat := 1
def MARKER_DICT : Nat := 2

/-! `serialize_value`: ints, floats and strings are the UTF-8 bytes of their
Python `str()`; a list is `0x01` followed by length-prefixed element
encodings; a dict is `0x02` followed by its `serialize_dict` body.  The
`cloudpickle` fallback lane handles objects outside this structural model
and is the injected external codec (spec §6), so it does not appear among
the structural constructors. -/
mutual
def serialize_value (FM : FloatModel) : PyVal FM.F → List Nat
  | .intV n => intDecRepr n
  | .floatV f => FM.toRepr f
  | .strV s => s
  | .listV xs => MARKER_LIST :: serialize_list_items FM xs
  | .dictV kvs => MARKER_DICT :: serialize_dict FM kvs

def serialize_list_items (FM : FloatModel) : PyValList FM.F → List Nat
  | .nil => []
  | .cons x xs =>
    let sx := serialize_value FM x
    u64le sx.length ++ sx ++ serialize_list_items FM xs

def serialize_dict (FM : FloatModel) : PyValPairs FM.F → List Nat
  | .nil => []
  | .cons k v rest =>
    let kb := serialize_value FM k
    let vb := serialize_value FM v
    u64le kb.length ++ kb ++ u64le vb.length ++ vb ++ serialize_dict FM rest
end

/-- `extract_next_slice`, phrased on the unread suffix of the input: reads an
8-byte little-endian length then that many payload bytes, returning
`(payload, remaining suffix)`; `none` when the suffix cannot supply a full
length+payload pair (the cursor bound checks `cursor + 8 <= value.len()` and
`cursor + len <= value.len()` of the source). -/
def extract_next_slice (rest : List Nat) : Option (List Nat × List Nat) :=
  if 8 ≤ rest.length then
    let len := leU64 (rest.take 8)
    let after := rest.drop 8
    if len ≤ after.length then some (after.take len, after.drop len) else none
  else none

/-! Fuel-bounded core of `deserialize_value`.  Empty input decodes to the
empty string; a `0x01`/`0x02` first byte dispatches to the list/dict loops;
otherwise the scalar lane checks UTF-8, tries the integer parse, then the
float parse, then falls back to the string itself; invalid UTF-8 goes to the
injected fallback codec `fb` (cloudpickle).  Each recursive call strictly
shrinks its input, so any `fuel > v.length` is sufficient. -/
mutual
def deserFuel (FM : FloatModel) (fb : List Nat → Option (PyVal FM.F)) :
    Nat → List Nat → Option (PyVal FM.F)
  | 0, _ => none
  | _ + 1, [] => some (.strV [])
  | fuel + 1, b :: rest =>
    if b = MARKER_LIST then (deserListFuel FM fb fuel rest).map .listV
    else if b = MARKER_DICT then (deserDictFuel FM fb fuel rest .nil).map .dictV
    else
      if utf8Valid (b :: rest) then
        match parseI64? (b :: rest) with
        | some n => some (.intV n)
        | none =>
          match FM.ofRepr (b :: rest) with
          | some f => some (.floatV f)
          | none => some (.strV (b :: rest))
      else fb (b :: rest)

def deserListFuel (FM : FloatModel) (fb : List Nat → Option (PyVal FM.F)) :
    Nat → List Nat → Option (PyValList FM.F)
  | 0, _ => none
  | fuel + 1, rest =>
    match extract_next_slice rest with
    | none => some .nil
    | some (payload, rest2) =>
      match deserFuel FM fb fuel payload with
      | none => none
      | some x =>
        match deserListFuel FM fb fuel rest2 with
        | none => none
        | some xs => some (.cons x xs)

def deserDictFuel (FM : FloatModel) (fb : List Nat → Option (PyVal FM.F)) :
    Nat → List Nat → PyValPairs FM.F → Option (PyValPairs FM.F)
  | 0, _, _ => none
  | fuel + 1, rest, acc =>
    match extract_next_slice rest with
    | none => some acc
    | some (kb, rest1) =>
      match extract_next_slice rest1 with
      | none => some acc
      | some (vb, rest2) =>
        match deserFuel FM fb fuel kb with
        | none => none
        | some k =>
          match deserFuel FM fb fuel vb with
          | none => none
          | some v =>
            match setItem FM acc k v with
            | none => none
            | some acc2 => deserDictFuel FM fb fuel rest2 acc2
end

/-- `deserialize_value` of the motionstate codec. -/
def deserialize_value (FM : FloatModel) (fb : List Nat → Option (PyVal FM.F))
    (v : List Nat) : Option (PyVal FM.F) :=
  deserFuel FM fb (v.length + 1) v

/-! ## Representability and inertness predicates

`wfVal` delimits the representable structural values: integers in the `i64`
range (the repository's own `PyValue` enum uses `Int(i64)`), strings that
are well-formed UTF-8, dict keys that are strings and pairwise distinct
(Python dicts), and component serializations shorter than `2^64` bytes (the
length is cast `as u64` on the wire; on a 64-bit host every `Vec` length
satisfies this).

`inertVal` singles out the values whose strings survive the scalar lane:
a nonempty string must not begin with a marker byte, must not parse as an
integer, and must not parse as a float.  The round-trip theorem is stated
under `inertVal`; the excluded strings are exactly the documented
digit-string ambiguity plus the marker collision of C10. -/

/-- Does `pyBeq FM k k0` fail for every key `k0` of `kvs`? -/
def keyFree (FM : FloatModel) (k : PyVal FM.F) : PyValPairs FM.F → Bool
  | .nil => true
  | .cons k0 _ r => !pyBeq FM k0 k && keyFree FM k r

/-- Are the keys of `kvs` pairwise `pyBeq`-distinct? -/
def keysDistinct (FM : FloatModel) : PyValPairs FM.F → Bool
  | .nil => true
  | .cons k _ r => keyFree FM k r && keysDistinct FM r

/-- Is this value a string? (the spec's maps are string-keyed) -/
def isStrKey {F : Type} : PyVal F → Bool
  | .strV _ => true
  | _ => false

mutual
def wfVal (FM : FloatModel) : PyVal FM.F → Bool
  | .intV n => decide (-(2 ^ 63) ≤ n) && decide (n < 2 ^ 63)
  | .floatV _ => true
  | .strV s => utf8Valid s
  | .listV xs => wfList FM xs
  | .dictV kvs => keysDistinct FM kvs && wfPairs FM kvs

def wfList (FM : FloatModel) : PyValList FM.F → Bool
  | .nil => true
  | .cons x xs =>
    decide ((serialize_value FM x).length < 2 ^ 64) && wfVal FM x && wfList FM xs

def wfPairs (FM : FloatModel) : PyValPairs FM.F → Bool
  | .nil => true
  | .cons k v r =>
    isStrKey k && decide ((serialize_value FM k).length < 2 ^ 64)
      && decide ((serialize_value FM v).length < 2 ^ 64)
      && wfVal FM k && wfVal FM v && wfPairs FM r
end

mutual
def inertVal (FM : FloatModel) : PyVal FM.F → Bool
  | .intV _ => true
  | .floatV _ => true
  | .strV s =>
    match s with
    | [] => true
    | b :: rest =>
      !(b == MARKER_LIST) && !(b == MARKER_DICT)
        && (parseI64? (b :: rest)).isNone && (FM.ofRepr (b :: rest)).isNone
  | .listV xs => inertList FM xs
  | .dictV kvs => inertPairs FM kvs

def inertList (FM : FloatModel) : PyValList FM.F → Bool
  | .nil => true
  | .cons x xs => inertVal FM x && inertList FM xs

def inertPairs (FM : FloatModel) : PyValPairs FM.F → Bool
  | .nil => true
  | .cons k v r => inertVal FM k && inertVal FM v && inertPairs FM r
end

/-! ## The rustystate decoder (`src/rustystate/src/lib.rs`)

Its container loops run `while cursor < value.len()` and slice
`value[cursor..cursor + 8]` and `value[cursor..cursor + item_len]` without
bounds checks, so a truncated frame makes the Rust slice operation panic.
The model returns `RFail.sliceOOB` exactly where the source would panic. -/

/-- Failure modes of the rustystate decoder: the explicit empty-input error,
an out-of-bounds slice (a Rust panic), a fallback-codec failure, or a
`set_item` failure on an unhashable key. -/
inductive RFail where
  | emptyData
  | sliceOOB
  | fallbackErr
  | keyErr
deriving DecidableEq

mutual
def rustyDeserFuel (FM : FloatModel) (fb : List Nat → Option (PyVal FM.F)) :
    Nat → List Nat → Except RFail (PyVal FM.F)
  | 0, _ => .error .sliceOOB
  | _ + 1, [] => .error .emptyData
  | fuel + 1, b :: rest =>
    if b = MARKER_LIST then
      match rustyListLoop FM fb fuel rest with
      | .error e => .error e
      | .ok xs => .ok (.listV xs)
    else if b = MARKER_DICT then
      match rustyDictLoop FM fb fuel rest .nil with
      | .error e => .error e
      | .ok kvs => .ok (.dictV kvs)
    else
      if utf8Valid (b :: rest) then
        match parseI64? (b :: rest) with
        | some n => .ok (.intV n)
        | none =>
          match FM.ofRepr (b :: rest) with
          | some f => .ok (.floatV f)
          | none => .ok (.strV (b :: rest))
      else
        match fb (b :: rest) with
        | some x => .ok x
        | none => .error .fallbackErr

def rustyListLoop (FM : FloatModel) (fb : List Nat → Option (PyVal FM.F)) :
    Nat → List Nat → Except RFail (PyValList FM.F)
  | 0, _ => .error .sliceOOB
  | fuel + 1, rest =>
    match rest with
    | [] => .ok .nil
    | _ :: _ =>
      if 8 ≤ rest.length then
        let len := leU64 (rest.take 8)
        let after := rest.drop 8
        if len ≤ after.length then
          match rustyDeserFuel FM fb fuel (after.take len) with
          | .error e => .error e
          | .ok x =>
            match rustyListLoop FM fb fuel (after.drop len) with
            | .error e => .error e
            | .ok xs => .ok (.cons x xs)
        else .error .sliceOOB
      else .error .sliceOOB

def rustyDictLoop (FM : FloatModel) (fb : List Nat → Option (PyVal FM.F)) :
    Nat → List Nat → PyValPairs FM.F → Except RFail (PyValPairs FM.F)
  | 0, _, _ => .error .sliceOOB
  | fuel + 1, rest, acc =>
    match rest with
    | [] => .ok acc
    | _ :: _ =>
      if 8 ≤ rest.length then
        let klen := leU64 (rest.take 8)
        let a1 := rest.drop 8
        if klen ≤ a1.length then
          match rustyDeserFuel FM fb fuel (a1.take klen) with
          | .error e => .error e
          | .ok k =>
            let a2 := a1.drop klen
            if 8 ≤ a2.length then
              let vlen := leU64 (a2.take 8)
              let a3 := a2.drop 8
              if vlen ≤ a3.length then
                match rustyDeserFuel FM fb fuel (a3.take vlen) with
                | .error e => .error e
                | .ok v =>
                  match setItem FM acc k v with
                  | none => .error .keyErr
                  | some acc2 => rustyDictLoop FM fb fuel (a3.drop vlen) acc2
              else .error .sliceOOB
            else .error .sliceOOB
        else .error .sliceOOB
      else .error .sliceOOB
end

/-- `deserialize_value` of the rustystate variant. -/
def rusty_deserialize_value (FM : FloatModel) (fb : List Nat → Option (PyVal FM.F))
    (v : List Nat) : Except RFail (PyVal FM.F) :=
  rustyDeserFuel FM fb (v.length + 1) v

/-! ## Round-trip infrastructure -/

/-- Concatenation of dict entry sequences. -/
def pairsAppend {F : Type} : PyValPairs F → PyValPairs F → PyValPairs F
  | .nil, q => q
  | .cons k v r, q => .cons k v (pairsAppend r q)

/-- Every key of the first sequence is `keyFree` in the second. -/
def keysFreeIn (FM : FloatModel) : PyValPairs FM.F → PyValPairs FM.F → Bool
  | .nil, _ => true
  | .cons k _ r, acc => keyFree FM k acc && keysFreeIn FM r acc

theorem pairsAppend_nil {F : Type} (q : PyValPairs F) : pairsAppend .nil q = q := rfl

theorem keyFree_nil (FM : FloatModel) (k : PyVal FM.F) : keyFree FM k .nil = true := rfl

theorem keysFreeIn_nil (FM : FloatModel) : ∀ kvs : PyValPairs FM.F,
    keysFreeIn FM kvs .nil = true
  | .nil => rfl
  | .cons k v r => by simp [keysFreeIn, keyFree_nil, keysFreeIn_nil FM r]

theorem pyBeq_strV (FM : FloatModel) (a b : List Nat) :
    pyBeq FM (.strV a) (.strV b) = (a == b) := rfl

theorem pyBeq_strV_comm (FM : FloatModel) (a b : List Nat) :
    pyBeq FM (.strV a) (.strV b) = pyBeq FM (.strV b) (.strV a) := by
  rw [pyBeq_strV, pyBeq_strV]
  by_cases h : a = b
  · subst h; rfl
  · rw [beq_eq_false_iff_ne.mpr h, beq_eq_false_iff_ne.mpr (Ne.symm h)]

theorem keyFree_pairsAppend (FM : FloatModel) (x : PyVal FM.F) :
    ∀ (p q : PyValPairs FM.F),
      keyFree FM x (pairsAppend p q) = (keyFree FM x p && keyFree FM x q)
  | .nil, q => by simp [pairsAppend, keyFree]
  | .cons k v r, q => by
    simp [pairsAppend, keyFree, keyFree_pairsAppend FM x r q, Bool.and_assoc]

theorem setItemGo_append (FM : FloatModel) (k v : PyVal FM.F) :
    ∀ acc : PyValPairs FM.F, keyFree FM k acc = true →
      setItemGo FM acc k v = pairsAppend acc (.cons k v .nil)
  | .nil, _ => rfl
  | .cons k0 v0 r, hfree => by
    simp only [keyFree, Bool.and_eq_true, Bool.not_eq_true'] at hfree
    simp [setItemGo, hfree.1, pairsAppend, setItemGo_append FM k v r hfree.2]

/-- With a hashable key free of `acc`, `set_item` appends the new entry. -/
theorem setItem_append (FM : FloatModel) (acc : PyValPairs FM.F)
    (k v : PyVal FM.F) (hh : pyHashable k = true) (hfree : keyFree FM k acc = true) :
    setItem FM acc k v = some (pairsAppend acc (.cons k v .nil)) := by
  unfold setItem
  rw [if_pos hh, setItemGo_append FM k v acc hfree]

/-- Reading back a frame written as `8-byte length ++ payload`. -/
theorem extract_next_slice_frame (payload rest : List Nat)
    (h : payload.length < 2 ^ 64) :
    extract_next_slice (u64le payload.length ++ (payload ++ rest)) =
      some (payload, rest) := by
  unfold extract_next_slice
  have hul : (u64le payload.length).length = 8 := u64le_length _
  have hlen : (u64le payload.length ++ (payload ++ rest)).length =
      8 + (payload.length + rest.length) := by
    simp [List.length_append, hul]
  have h8 : 8 ≤ (u64le payload.length ++ (payload ++ rest)).length := by omega
  rw [if_pos h8]
  have htake : (u64le payload.length ++ (payload ++ rest)).take 8 =
      u64le payload.length := List.take_left' hul
  have hdrop : (u64le payload.length ++ (payload ++ rest)).drop 8 =
      payload ++ rest := List.drop_left' hul
  rw [htake, hdrop, leU64_u64le, Nat.mod_eq_of_lt h]
  have hple : payload.length ≤ (payload ++ rest).length := by
    simp [List.length_append]
  rw [if_pos hple]
  rw [List.take_left, List.drop_left]

theorem isStrKey_eq {F : Type} : ∀ v : PyVal F, isStrKey v = true → ∃ s, v = .strV s := by
  intro v
  cases v <;> simp [isStrKey]

theorem pairsAppend_nil_right {F : Type} : ∀ p : PyValPairs F, pairsAppend p .nil = p
  | .nil => rfl
  | .cons k v r => by simp [pairsAppend, pairsAppend_nil_right r]

theorem pairsAppend_assoc {F : Type} : ∀ p q r : PyValPairs F,
    pairsAppend (pairsAppend p q) r = pairsAppend p (pairsAppend q r)
  | .nil, _, _ => rfl
  | .cons k v p', q, r => by simp [pairsAppend, pairsAppend_assoc p' q r]

/-- Appending a fresh string-keyed entry to `acc` preserves freeness of the
keys of `r` (all strings, by well-formedness), provided the new key is free
of `r`. -/
theorem keysFreeIn_snoc (FM : FloatModel) (k v : PyVal FM.F) (hk : isStrKey k = true) :
    ∀ (r acc : PyValPairs FM.F), wfPairs FM r = true → keysFreeIn FM r acc = true →
      keyFree FM k r = true →
      keysFreeIn FM r (pairsAppend acc (.cons k v .nil)) = true
  | .nil, acc, _, _, _ => rfl
  | .cons k' v' r', acc, hwf, hfr, hkf => by
    simp only [wfPairs, Bool.and_eq_true, and_assoc] at hwf
    simp only [keysFreeIn, Bool.and_eq_true] at hfr
    simp only [keyFree, Bool.and_eq_true, Bool.not_eq_true'] at hkf
    obtain ⟨a, hka⟩ := isStrKey_eq k hk
    obtain ⟨b, hkb⟩ := isStrKey_eq k' hwf.1
    have hcomm : pyBeq FM k k' = false := by
      rw [hka, hkb, pyBeq_strV_comm, ← hka, ← hkb, hkf.1]
    simp only [keysFreeIn, Bool.and_eq_true]
    refine ⟨?_, keysFreeIn_snoc FM k v hk r' acc hwf.2.2.2.2.2 hfr.2 hkf.2⟩
    rw [keyFree_pairsAppend]
    simp [keyFree, hfr.1, hcomm]

/-- Joint fuel induction for the round-trip: values, list bodies and dict
bodies, each with any fuel exceeding the serialized length. -/
theorem roundtripAux (FM : FloatModel) (fb : List Nat → Option (PyVal FM.F)) :
    ∀ fuel : Nat,
      (∀ v, wfVal FM v = true → inertVal FM v = true →
        (serialize_value FM v).length < fuel →
        deserFuel FM fb fuel (serialize_value FM v) = some v) ∧
      (∀ xs, wfList FM xs = true → inertList FM xs = true →
        (serialize_list_items FM xs).length < fuel →
        deserListFuel FM fb fuel (serialize_list_items FM xs) = some xs) ∧
      (∀ kvs acc, wfPairs FM kvs = true → inertPairs FM kvs = true →
        keysDistinct FM kvs = true → keysFreeIn FM kvs acc = true →
        (serialize_dict FM kvs).length < fuel →
        deserDictFuel FM fb fuel (serialize_dict FM kvs) acc =
          some (pairsAppend acc kvs)) := by
  intro fuel
  induction fuel with
  | zero =>
    exact ⟨fun v _ _ h => absurd h (Nat.not_lt_zero _),
      fun xs _ _ h => absurd h (Nat.not_lt_zero _),
      fun kvs acc _ _ _ _ h => absurd h (Nat.not_lt_zero _)⟩
  | succ f ih =>
    obtain ⟨ihV, ihL, ihP⟩ := ih
    refine ⟨?_, ?_, ?_⟩
    · intro v hwf hin hlen
      cases v with
      | intV n =>
        simp only [wfVal, Bool.and_eq_true, decide_eq_true_eq] at hwf
        have hparse := parseI64?_intDecRepr n hwf.1 hwf.2
        have hascii := utf8Valid_of_ascii (intDecRepr n) (intDecRepr_ascii n)
        obtain ⟨b, r, hrep, hb⟩ := intDecRepr_head_digit_or_minus n
        show deserFuel FM fb (f + 1) (intDecRepr n) = some (.intV n)
        rw [hrep] at hparse hascii ⊢
        have h1 : ¬(b = MARKER_LIST) := by
          unfold MARKER_LIST; rcases hb with h | ⟨h1, h2⟩ <;> omega
        have h2 : ¬(b = MARKER_DICT) := by
          unfold MARKER_DICT; rcases hb with h | ⟨h1, h2⟩ <;> omega
        simp only [deserFuel, h1, h2, if_false, hascii, if_true, hparse]
      | floatV fl =>
        obtain ⟨b, r, heq, hb1, hb2⟩ := FM.toRepr_head fl
        have hutf := FM.toRepr_utf8 fl
        have hint := FM.toRepr_not_int fl
        have hof := FM.ofRepr_toRepr fl
        show deserFuel FM fb (f + 1) (FM.toRepr fl) = some (.floatV fl)
        rw [heq] at hutf hint hof ⊢
        have h1 : ¬(b = MARKER_LIST) := by unfold MARKER_LIST; omega
        have h2 : ¬(b = MARKER_DICT) := by unfold MARKER_DICT; omega
        simp only [deserFuel, h1, h2, if_false, hutf, if_true, hint, hof]
      | strV s =>
        cases s with
        | nil => rfl
        | cons b rest =>
          simp only [wfVal] at hwf
          simp only [inertVal, Bool.and_eq_true, and_assoc, Bool.not_eq_true',
            beq_eq_false_iff_ne, Option.isNone_iff_eq_none] at hin
          show deserFuel FM fb (f + 1) (b :: rest) = some (.strV (b :: rest))
          simp only [deserFuel, hin.1, hin.2.1, if_false, hwf, if_true,
            hin.2.2.1, hin.2.2.2]
      | listV xs =>
        simp only [wfVal] at hwf
        simp only [inertVal] at hin
        show deserFuel FM fb (f + 1)
          (MARKER_LIST :: serialize_list_items FM xs) = some (.listV xs)
        have hlen' : (serialize_list_items FM xs).length < f := by
          simp only [serialize_value, List.length_cons] at hlen
          omega
        simp only [deserFuel, eq_self_iff_true, if_true,
          ihL xs hwf hin hlen', Option.map_some']
      | dictV kvs =>
        simp only [wfVal, Bool.and_eq_true] at hwf
        simp only [inertVal] at hin
        show deserFuel FM fb (f + 1)
          (MARKER_DICT :: serialize_dict FM kvs) = some (.dictV kvs)
        have hlen' : (serialize_dict FM kvs).length < f := by
          simp only [serialize_value, List.length_cons] at hlen
          omega
        have h12 : ¬((MARKER_DICT : Nat) = MARKER_LIST) := by
          unfold MARKER_LIST MARKER_DICT; omega
        simp only [deserFuel, h12, if_false, eq_self_iff_true, if_true,
          ihP kvs .nil hwf.2 hin hwf.1 (keysFreeIn_nil FM kvs) hlen',
          Option.map_some', pairsAppend]
    · intro xs hwf hin hlen
      cases xs with
      | nil =>
        show deserListFuel FM fb (f + 1) [] = some .nil
        simp [deserListFuel, extract_next_slice]
      | cons x xs' =>
        simp only [wfList, Bool.and_eq_true, and_assoc, decide_eq_true_eq] at hwf
        simp only [inertList, Bool.and_eq_true] at hin
        have hser : serialize_list_items FM (.cons x xs') =
            u64le (serialize_value FM x).length ++
              (serialize_value FM x ++ serialize_list_items FM xs') := by
          simp only [serialize_list_items, List.append_assoc]
        rw [hser] at hlen ⊢
        rw [List.length_append, List.length_append, u64le_length] at hlen
        simp only [deserListFuel,
          extract_next_slice_frame (serialize_value FM x)
            (serialize_list_items FM xs') hwf.1,
          ihV x hwf.2.1 hin.1 (by omega),
          ihL xs' hwf.2.2 hin.2 (by omega)]
    · intro kvs acc hwf hin hkd hfree hlen
      cases kvs with
      | nil =>
        show deserDictFuel FM fb (f + 1) [] acc = some (pairsAppend acc .nil)
        rw [pairsAppend_nil_right]
        simp [deserDictFuel, extract_next_slice]
      | cons k v r =>
        simp only [wfPairs, Bool.and_eq_true, and_assoc, decide_eq_true_eq] at hwf
        simp only [inertPairs, Bool.and_eq_true, and_assoc] at hin
        simp only [keysDistinct, Bool.and_eq_true] at hkd
        simp only [keysFreeIn, Bool.and_eq_true] at hfree
        obtain ⟨hkstr, hkb64, hvb64, hwfk, hwfv, hwfr⟩ := hwf
        have hser : serialize_dict FM (.cons k v r) =
            u64le (serialize_value FM k).length ++
              (serialize_value FM k ++
                (u64le (serialize_value FM v).length ++
                  (serialize_value FM v ++ serialize_dict FM r))) := by
          simp only [serialize_dict, List.append_assoc]
        rw [hser] at hlen ⊢
        simp only [List.length_append, u64le_length] at hlen
        have hhash : pyHashable k = true := by
          obtain ⟨s, hs⟩ := isStrKey_eq k hkstr
          rw [hs]; rfl
        simp only [deserDictFuel,
          extract_next_slice_frame (serialize_value FM k) _ hkb64,
          extract_next_slice_frame (serialize_value FM v) _ hvb64,
          ihV k hwfk hin.1 (by omega),
          ihV v hwfv hin.2.1 (by omega),
          setItem_append FM acc k v hhash hfree.1]
        rw [ihP r (pairsAppend acc (.cons k v .nil)) hwfr hin.2.2 hkd.2
          (keysFreeIn_snoc FM k v hkstr r acc hwfr hfree.2 hkd.1) (by omega)]
        rw [pairsAppend_assoc]
        rfl

/-- Length of a value list. -/
def pyListLength {F : Type} : PyValList F → Nat
  | .nil => 0
  | .cons _ xs => pyListLength xs + 1

/-- Greedy frame extraction, fuel-bounded: the payloads of the
length+payload pairs that `extract_next_slice` can take off the input,
stopping at the first incomplete pair. -/
def extractFramesAux : Nat → List Nat → List (List Nat)
  | 0, _ => []
  | fuel + 1, rest =>
    match extract_next_slice rest with
    | none => []
    | some (p, rest2) => p :: extractFramesAux fuel rest2

def extractFrames (rest : List Nat) : List (List Nat) :=
  extractFramesAux (rest.length + 1) rest

/-- Greedy pair-frame extraction (dict bodies): key payload and value
payload per entry, stopping when either half of a pair is incomplete. -/
def extractPairFramesAux : Nat → List Nat → List (List Nat × List Nat)
  | 0, _ => []
  | fuel + 1, rest =>
    match extract_next_slice rest with
    | none => []
    | some (kb, rest1) =>
      match extract_next_slice rest1 with
      | none => []
      | some (vb, rest2) => (kb, vb) :: extractPairFramesAux fuel rest2

def extractPairFrames (rest : List Nat) : List (List Nat × List Nat) :=
  extractPairFramesAux (rest.length + 1) rest

/-- A successful extraction consumes at least the 8 length bytes. -/
theorem extract_next_slice_lt (rest p rest2 : List Nat)
    (h : extract_next_slice rest = some (p, rest2)) :
    p.length + 8 ≤ rest.length ∧ rest2.length + 8 ≤ rest.length := by
  unfold extract_next_slice at h
  by_cases h8 : 8 ≤ rest.length
  · rw [if_pos h8] at h
    by_cases hl : leU64 (rest.take 8) ≤ (rest.drop 8).length
    · rw [if_pos hl] at h
      simp only [Option.some.injEq, Prod.mk.injEq] at h
      obtain ⟨hp, hr⟩ := h
      subst hp hr
      constructor
      · simp only [List.length_take, List.length_drop] at hl ⊢
        omega
      · simp only [List.length_drop] at hl ⊢
        omega
    · rw [if_neg hl] at h; exact absurd h (by simp)
  · rw [if_neg h8] at h; exact absurd h (by simp)

theorem extractFramesAux_invariant :
    ∀ f1 f2 rest, rest.length < f1 → rest.length < f2 →
      extractFramesAux f1 rest = extractFramesAux f2 rest := by
  intro f1
  induction f1 with
  | zero => intro f2 rest h; omega
  | succ g ih =>
    intro f2 rest h1 h2
    cases f2 with
    | zero => omega
    | succ h =>
      cases hx : extract_next_slice rest with
      | none =>
        unfold extractFramesAux
        rw [hx]
      | some pr =>
        obtain ⟨p, rest2⟩ := pr
        have hlt := extract_next_slice_lt rest p rest2 hx
        unfold extractFramesAux
        rw [hx]
        show p :: extractFramesAux g rest2 = p :: extractFramesAux h rest2
        rw [ih h rest2 (by omega) (by omega)]

theorem extractPairFramesAux_invariant :
    ∀ f1 f2 rest, rest.length < f1 → rest.length < f2 →
      extractPairFramesAux f1 rest = extractPairFramesAux f2 rest := by
  intro f1
  induction f1 with
  | zero => intro f2 rest h; omega
  | succ g ih =>
    intro f2 rest h1 h2
    cases f2 with
    | zero => omega
    | succ h =>
      cases hx : extract_next_slice rest with
      | none =>
        unfold extractPairFramesAux
        rw [hx]
      | some pr =>
        obtain ⟨kb, rest1⟩ := pr
        have hlt1 := extract_next_slice_lt rest kb rest1 hx
        unfold extractPairFramesAux
        rw [hx]
        show (match extract_next_slice rest1 with
            | none => []
            | some (vb, rest2) => (kb, vb) :: extractPairFramesAux g rest2) =
          (match extract_next_slice rest1 with
            | none => []
            | some (vb, rest2) => (kb, vb) :: extractPairFramesAux h rest2)
        cases hy : extract_next_slice rest1 with
        | none => rfl
        | some pr2 =>
          obtain ⟨vb, rest2⟩ := pr2
          have hlt2 := extract_next_slice_lt rest1 vb rest2 hy
          show (kb, vb) :: extractPairFramesAux g rest2 =
            (kb, vb) :: extractPairFramesAux h rest2
          rw [ih h rest2 (by omega) (by omega)]

/-- The fuel parameter is irrelevant once it exceeds the input length:
`deserFuel`/`deserListFuel`/`deserDictFuel` compute the same result for any
sufficient fuel. -/
theorem deserFuel_invariant (FM : FloatModel) (fb : List Nat → Option (PyVal FM.F)) :
    ∀ f1 : Nat,
      (∀ f2 v, v.length < f1 → v.length < f2 →
        deserFuel FM fb f1 v = deserFuel FM fb f2 v) ∧
      (∀ f2 rest, rest.length < f1 → rest.length < f2 →
        deserListFuel FM fb f1 rest = deserListFuel FM fb f2 rest) ∧
      (∀ f2 rest acc, rest.length < f1 → rest.length < f2 →
        deserDictFuel FM fb f1 rest acc = deserDictFuel FM fb f2 rest acc) := by
  intro f1
  induction f1 with
  | zero =>
    exact ⟨fun f2 v h => absurd h (Nat.not_lt_zero _),
      fun f2 rest h => absurd h (Nat.not_lt_zero _),
      fun f2 rest acc h => absurd h (Nat.not_lt_zero _)⟩
  | succ g ih =>
    obtain ⟨ihV, ihL, ihD⟩ := ih
    refine ⟨?_, ?_, ?_⟩
    · intro f2 v h1 h2
      cases f2 with
      | zero => omega
      | succ h =>
        cases v with
        | nil => rfl
        | cons b rest =>
          simp only [List.length_cons] at h1 h2
          simp only [deserFuel]
          by_cases hb1 : b = MARKER_LIST
          · rw [if_pos hb1, if_pos hb1, ihL h rest (by omega) (by omega)]
          · by_cases hb2 : b = MARKER_DICT
            · rw [if_neg hb1, if_neg hb1, if_pos hb2, if_pos hb2,
                ihD h rest .nil (by omega) (by omega)]
            · rw [if_neg hb1, if_neg hb1, if_neg hb2, if_neg hb2]
    · intro f2 rest h1 h2
      cases f2 with
      | zero => omega
      | succ h =>
        unfold deserListFuel
        cases hx : extract_next_slice rest with
        | none => rfl
        | some pr =>
          obtain ⟨p, rest2⟩ := pr
          have hlt := extract_next_slice_lt rest p rest2 hx
          show (match deserFuel FM fb g p with
              | none => none
              | some x =>
                match deserListFuel FM fb g rest2 with
                | none => none
                | some xs => some (PyValList.cons x xs)) =
            (match deserFuel FM fb h p with
              | none => none
              | some x =>
                match deserListFuel FM fb h rest2 with
                | none => none
                | some xs => some (PyValList.cons x xs))
          rw [ihV h p (by omega) (by omega), ihL h rest2 (by omega) (by omega)]
    · intro f2 rest acc h1 h2
      cases f2 with
      | zero => omega
      | succ h =>
        unfold deserDictFuel
        cases hx : extract_next_slice rest with
        | none => rfl
        | some pr =>
          obtain ⟨kb, rest1⟩ := pr
          have hlt1 := extract_next_slice_lt rest kb rest1 hx
          show (match extract_next_slice rest1 with
              | none => some acc
              | some (vb, rest2) =>
                match deserFuel FM fb g kb with
                | none => none
                | some k =>
                  match deserFuel FM fb g vb with
                  | none => none
                  | some v =>
                    match setItem FM acc k v with
                    | none => none
                    | some acc2 => deserDictFuel FM fb g rest2 acc2) =
            (match extract_next_slice rest1 with
              | none => some acc
              | some (vb, rest2) =>
                match deserFuel FM fb h kb with
                | none => none
                | some k =>
                  match deserFuel FM fb h vb with
                  | none => none
                  | some v =>
                    match setItem FM acc k v with
                    | none => none
                    | some acc2 => deserDictFuel FM fb h rest2 acc2)
          cases hy : extract_next_slice rest1 with
          | none => rfl
          | some pr2 =>
            obtain ⟨vb, rest2⟩ := pr2
            have hlt2 := extract_next_slice_lt rest1 vb rest2 hy
            show (match deserFuel FM fb g kb with
                | none => none
                | some k =>
                  match deserFuel FM fb g vb with
                  | none => none
                  | some v =>
                    match setItem FM acc k v with
                    | none => none
                    | some acc2 => deserDictFuel FM fb g rest2 acc2) =
              (match deserFuel FM fb h kb with
                | none => none
                | some k =>
                  match deserFuel FM fb h vb with
                  | none => none
                  | some v =>
                    match setItem FM acc k v with
                    | none => none
                    | some acc2 => deserDictFuel FM fb h rest2 acc2)
            rw [ihV h kb (by omega) (by omega), ihV h vb (by omega) (by omega)]
            cases deserFuel FM fb h kb with
            | none => rfl
            | some k =>
              show (match deserFuel FM fb h vb with
                  | none => none
                  | some v =>
                    match setItem FM acc k v with
                    | none => none
                    | some acc2 => deserDictFuel FM fb g rest2 acc2) =
                (match deserFuel FM fb h vb with
                  | none => none
                  | some v =>
                    match setItem FM acc k v with
                    | none => none
                    | some acc2 => deserDictFuel FM fb h rest2 acc2)
              cases deserFuel FM fb h vb with
              | none => rfl
              | some v =>
                show (match setItem FM acc k v with
                    | none => none
                    | some acc2 => deserDictFuel FM fb g rest2 acc2) =
                  (match setItem FM acc k v with
                    | none => none
                    | some acc2 => deserDictFuel FM fb h rest2 acc2)
                cases setItem FM acc k v with
                | none => rfl
                | some acc2 => exact ihD h rest2 acc2 (by omega) (by omega)

/-- When every greedily-extractable frame decodes, the list loop succeeds and
returns exactly one element per frame, for any sufficient fuel. -/
theorem deserListFuel_frames (FM : FloatModel) (fb : List Nat → Option (PyVal FM.F)) :
    ∀ (fuel : Nat) (rest : List Nat), rest.length < fuel →
      (∀ p ∈ extractFrames rest, ∃ x, deserialize_value FM fb p = some x) →
      ∃ xs, deserListFuel FM fb fuel rest = some xs ∧
        pyListLength xs = (extractFrames rest).length := by
  intro fuel
  induction fuel with
  | zero => intro rest h; omega
  | succ g ih =>
    intro rest hlen hall
    cases hx : extract_next_slice rest with
    | none =>
      have hfr : extractFrames rest = [] := by
        unfold extractFrames extractFramesAux
        rw [hx]
      refine ⟨.nil, ?_, by rw [hfr]; rfl⟩
      unfold deserListFuel
      rw [hx]
    | some pr =>
      obtain ⟨p, rest2⟩ := pr
      have hlt := extract_next_slice_lt rest p rest2 hx
      have hfr : extractFrames rest = p :: extractFrames rest2 := by
        unfold extractFrames extractFramesAux
        rw [hx]
        show p :: extractFramesAux rest.length rest2 = p :: extractFrames rest2
        rw [extractFramesAux_invariant rest.length (rest2.length + 1) rest2
          (by omega) (by omega)]
        rfl
      obtain ⟨x, hxdec⟩ := hall p (by rw [hfr]; exact List.mem_cons_self _ _)
      have hxg : deserFuel FM fb g p = some x := by
        rw [(deserFuel_invariant FM fb g).1 (p.length + 1) p (by omega) (by omega)]
        exact hxdec
      obtain ⟨xs, hxs, hlenxs⟩ := ih rest2 (by omega) (fun q hq =>
        hall q (by rw [hfr]; exact List.mem_cons_of_mem _ hq))
      refine ⟨.cons x xs, ?_, by rw [hfr]; simp [pyListLength, hlenxs]⟩
      unfold deserListFuel
      rw [hx]
      show (match deserFuel FM fb g p with
          | none => none
          | some x =>
            match deserListFuel FM fb g rest2 with
            | none => none
            | some xs => some (PyValList.cons x xs)) = some (PyValList.cons x xs)
      rw [hxg, hxs]
  
/-- When every greedily-extractable key/value frame pair decodes and the keys
are hashable, the dict loop succeeds, for any sufficient fuel. -/
theorem deserDictFuel_total (FM : FloatModel) (fb : List Nat → Option (PyVal FM.F)) :
    ∀ (fuel : Nat) (rest : List Nat) (acc : PyValPairs FM.F), rest.length < fuel →
      (∀ pq ∈ extractPairFrames rest,
        (∃ k, deserialize_value FM fb pq.1 = some k ∧ pyHashable k = true) ∧
        (∃ w, deserialize_value FM fb pq.2 = some w)) →
      ∃ kvs, deserDictFuel FM fb fuel rest acc = some kvs := by
  intro fuel
  induction fuel with
  | zero => intro rest acc h; omega
  | succ g ih =>
    intro rest acc hlen hall
    cases hx : extract_next_slice rest with
    | none =>
      refine ⟨acc, ?_⟩
      unfold deserDictFuel
      rw [hx]
    | some pr =>
      obtain ⟨kb, rest1⟩ := pr
      have hlt1 := extract_next_slice_lt rest kb rest1 hx
      cases hy : extract_next_slice rest1 with
      | none =>
        refine ⟨acc, ?_⟩
        unfold deserDictFuel
        rw [hx]
        show (match extract_next_slice rest1 with
            | none => some acc
            | some (vb, rest2) =>
              match deserFuel FM fb g kb with
              | none => none
              | some k =>
                match deserFuel FM fb g vb with
                | none => none
                | some v =>
                  match setItem FM acc k v with
                  | none => none
                  | some acc2 => deserDictFuel FM fb g rest2 acc2) = some acc
        rw [hy]
      | some pr2 =>
        obtain ⟨vb, rest2⟩ := pr2
        have hlt2 := extract_next_slice_lt rest1 vb rest2 hy
        have hfr : extractPairFrames rest = (kb, vb) :: extractPairFrames rest2 := by
          unfold extractPairFrames extractPairFramesAux
          rw [hx]
          show (match extract_next_slice rest1 with
              | none => []
              | some (vb, rest2) => (kb, vb) :: extractPairFramesAux rest.length rest2) =
            (kb, vb) :: extractPairFrames rest2
          rw [hy]
          show (kb, vb) :: extractPairFramesAux rest.length rest2 =
            (kb, vb) :: extractPairFrames rest2
          rw [extractPairFramesAux_invariant rest.length (rest2.length + 1) rest2
            (by omega) (by omega)]
          rfl
        obtain ⟨⟨k, hkdec, hkhash⟩, ⟨w, hwdec⟩⟩ :=
          hall (kb, vb) (by rw [hfr]; exact List.mem_cons_self _ _)
        have hkg : deserFuel FM fb g kb = some k := by
          rw [(deserFuel_invariant FM fb g).1 (kb.length + 1) kb (by omega) (by omega)]
          exact hkdec
        have hwg : deserFuel FM fb g vb = some w := by
          rw [(deserFuel_invariant FM fb g).1 (vb.length + 1) vb (by omega) (by omega)]
          exact hwdec
        obtain ⟨kvs, hkvs⟩ := ih rest2 (setItemGo FM acc k w) (by omega)
          (fun q hq => hall q (by rw [hfr]; exact List.mem_cons_of_mem _ hq))
        refine ⟨kvs, ?_⟩
        unfold deserDictFuel
        rw [hx]
        show (match extract_next_slice rest1 with
            | none => some acc
            | some (vb, rest2) =>
              match deserFuel FM fb g kb with
              | none => none
              | some k =>
                match deserFuel FM fb g vb with
                | none => none
                | some v =>
                  match setItem FM acc k v with
                  | none => none
                  | some acc2 => deserDictFuel FM fb g rest2 acc2) = some kvs
        rw [hy]
        show (match deserFuel FM fb g kb with
            | none => none
            | some k =>
              match deserFuel FM fb g vb with
              | none => none
              | some v =>
                match setItem FM acc k v with
                | none => none
                | some acc2 => deserDictFuel FM fb g rest2 acc2) = some kvs
        rw [hkg, hwg]
        show (match setItem FM acc k w with
            | none => none
            | some acc2 => deserDictFuel FM fb g rest2 acc2) = some kvs
        unfold setItem
        rw [if_pos hkhash]
        exact hkvs

/-! ## Claim theorems: the value codec -/

/-- C1 (amended).  Codec round-trip for representable structural values, with
two exception families instead of one: decoding the encoding of `v` yields
`v` for every well-formed Integer, Float, List or String-keyed Map, provided
every string occurring in `v` (as a value or dict key) is *inert* — it is
neither integer-shaped nor float-shaped text (the documented digit-string
ambiguity) and also does not begin with the marker byte `0x01` or `0x02`.
The marker-byte exception is forced by `claim_C1_counterexample`, which the
original claim's "single documented exception" wording does not cover. -/
theorem claim_C1 (FM : FloatModel) (fb : List Nat → Option (PyVal FM.F))
    (v : PyVal FM.F) (hwf : wfVal FM v = true) (hin : inertVal FM v = true) :
    deserialize_value FM fb (serialize_value FM v) = some v :=
  (roundtripAux FM fb ((serialize_value FM v).length + 1)).1 v hwf hin
    (Nat.lt_succ_self _)

/-- C1 counterexample: the list `["\x01"]` is a representable List of
primitives, is not integer- or float-shaped text, yet decodes to `[[]]` —
its marker-leading string element is re-parsed as an empty nested list, so
the round-trip fails beyond the documented digit-string exception. -/
theorem claim_C1_counterexample :
    wfVal infFloatModel (.listV (.cons (.strV [MARKER_LIST]) .nil)) = true ∧
    deserialize_value infFloatModel (fun _ => none)
      (serialize_value infFloatModel (.listV (.cons (.strV [MARKER_LIST]) .nil))) =
      some (.listV (.cons (.listV .nil) .nil)) ∧
    (PyVal.listV (.cons (.listV .nil) .nil) : PyVal infFloatModel.F) ≠
      .listV (.cons (.strV [MARKER_LIST]) .nil) := by
  refine ⟨rfl, rfl, ?_⟩
  intro h
  injection h with h1
  injection h1 with h2 h3
  exact PyVal.noConfusion h2

/-- C1 witness: a concrete round trip through the codec — the map
`{"key": [-42, inf, ""]}` (with the witness float model) encodes and decodes
back to itself. -/
theorem claim_C1_witness :
    wfVal infFloatModel
      (.dictV (.cons (.strV [107, 101, 121])
        (.listV (.cons (.intV (-42)) (.cons (.floatV ()) (.cons (.strV []) .nil))))
        .nil)) = true ∧
    deserialize_value infFloatModel (fun _ => none)
      (serialize_value infFloatModel
        (.dictV (.cons (.strV [107, 101, 121])
          (.listV (.cons (.intV (-42)) (.cons (.floatV ()) (.cons (.strV []) .nil))))
          .nil))) =
      some (.dictV (.cons (.strV [107, 101, 121])
        (.listV (.cons (.intV (-42)) (.cons (.floatV ()) (.cons (.strV []) .nil))))
        .nil)) :=
  ⟨rfl, claim_C1 infFloatModel (fun _ => none) _ rfl rfl⟩

/-- C10.  Marker collision: a Python string whose UTF-8 encoding begins with
`0x01` (or `0x02`) is encoded as its raw bytes with no marker of its own, so
the decoder re-parses it as a List (or Map): `decode(encode("\x01")) = []`
and `decode(encode("\x02A")) = {}`, neither observably equal to the original
string. -/
theorem claim_C10 :
    serialize_value infFloatModel (.strV [MARKER_LIST]) = [MARKER_LIST] ∧
    deserialize_value infFloatModel (fun _ => none) [MARKER_LIST] =
      some (.listV .nil) ∧
    (PyVal.listV .nil : PyVal infFloatModel.F) ≠ .strV [MARKER_LIST] ∧
    serialize_value infFloatModel (.strV [MARKER_DICT, 65]) = [MARKER_DICT, 65] ∧
    deserialize_value infFloatModel (fun _ => none) [MARKER_DICT, 65] =
      some (.dictV .nil) ∧
    (PyVal.dictV .nil : PyVal infFloatModel.F) ≠ .strV [MARKER_DICT, 65] :=
  ⟨rfl, rfl, fun h => PyVal.noConfusion h, rfl, rfl, fun h => PyVal.noConfusion h⟩

/-- C9 (amended).  Decoder totality on truncated frames holds for the
motionstate decoder: `extract_next_slice` returns `none` (instead of reading
out of bounds) whenever fewer than 8 bytes remain or the announced payload
length exceeds the remaining bytes, and list/map decoding returns exactly
the elements whose full length+payload pairs (pairs of pairs, for maps)
could be extracted.  The rustystate decoder violates the original claim
(`claim_C9_counterexample`): its loops slice without bounds checks and panic
on the same inputs. -/
theorem claim_C9 :
    (∀ rest : List Nat, rest.length < 8 → extract_next_slice rest = none) ∧
    (∀ rest : List Nat, 8 ≤ rest.length →
      rest.length < 8 + leU64 (rest.take 8) → extract_next_slice rest = none) ∧
    (∀ (FM : FloatModel) (fb : List Nat → Option (PyVal FM.F)) (rest : List Nat),
      (∀ p ∈ extractFrames rest, ∃ x, deserialize_value FM fb p = some x) →
      ∃ xs, deserialize_value FM fb (MARKER_LIST :: rest) = some (.listV xs) ∧
        pyListLength xs = (extractFrames rest).length) ∧
    (∀ (FM : FloatModel) (fb : List Nat → Option (PyVal FM.F)) (rest : List Nat),
      (∀ pq ∈ extractPairFrames rest,
        (∃ k, deserialize_value FM fb pq.1 = some k ∧ pyHashable k = true) ∧
        (∃ w, deserialize_value FM fb pq.2 = some w)) →
      ∃ kvs, deserialize_value FM fb (MARKER_DICT :: rest) = some (.dictV kvs)) := by
  refine ⟨?_, ?_, ?_, ?_⟩
  · intro rest h
    unfold extract_next_slice
    rw [if_neg (by omega)]
  · intro rest h8 hshort
    unfold extract_next_slice
    rw [if_pos h8, if_neg (by rw [List.length_drop]; omega)]
  · intro FM fb rest hall
    obtain ⟨xs, hxs, hlen⟩ := deserListFuel_frames FM fb (rest.length + 1) rest
      (Nat.lt_succ_self _) hall
    refine ⟨xs, ?_, hlen⟩
    show deserFuel FM fb ((MARKER_LIST :: rest).length + 1) (MARKER_LIST :: rest) =
      some (.listV xs)
    rw [show (MARKER_LIST :: rest).length + 1 = (rest.length + 1) + 1 by
      rw [List.length_cons]]
    simp only [deserFuel, eq_self_iff_true, if_true, hxs, Option.map_some']
  · intro FM fb rest hall
    obtain ⟨kvs, hkvs⟩ := deserDictFuel_total FM fb (rest.length + 1) rest .nil
      (Nat.lt_succ_self _) hall
    refine ⟨kvs, ?_⟩
    show deserFuel FM fb ((MARKER_DICT :: rest).length + 1) (MARKER_DICT :: rest) =
      some (.dictV kvs)
    rw [show (MARKER_DICT :: rest).length + 1 = (rest.length + 1) + 1 by
      rw [List.length_cons]]
    have h12 : ¬((MARKER_DICT : Nat) = MARKER_LIST) := by
      unfold MARKER_LIST MARKER_DICT; omega
    simp only [deserFuel, h12, if_false, eq_self_iff_true, if_true, hkvs,
      Option.map_some']

/-- C9 counterexample: on the truncated frame `[0x01, 0x00]` the rustystate
decoder's list loop slices `value[1..9]` out of bounds — a panic, not a
normal return — while the motionstate decoder on the same input returns the
empty list (the elements decoded so far). -/
theorem claim_C9_counterexample :
    rusty_deserialize_value infFloatModel (fun _ => none) [MARKER_LIST, 0] =
      .error .sliceOOB ∧
    (Except.error RFail.sliceOOB : Except RFail (PyVal infFloatModel.F)) ≠
      .ok (.listV .nil) ∧
    deserialize_value infFloatModel (fun _ => none) [MARKER_LIST, 0] =
      some (.listV .nil) :=
  ⟨rfl, fun h => Except.noConfusion h, rfl⟩

/-- C9 witness: a list body carrying one complete frame (the digits `3`)
followed by a dangling byte decodes to exactly one element. -/
theorem claim_C9_witness :
    ∃ xs, deserialize_value infFloatModel (fun _ => none)
        (MARKER_LIST :: [1, 0, 0, 0, 0, 0, 0, 0, 51, 9]) = some (.listV xs) ∧
      pyListLength xs = (extractFrames [1, 0, 0, 0, 0, 0, 0, 0, 51, 9]).length := by
  apply claim_C9.2.2.1 infFloatModel (fun _ => none)
  intro p hp
  have hfr : extractFrames [1, 0, 0, 0, 0, 0, 0, 0, 51, 9] = [[51]] := rfl
  rw [hfr] at hp
  simp only [List.mem_singleton] at hp
  subst hp
  exact ⟨.intV 3, rfl⟩

/-! ## The StateAccessor orchestrator (`src/src/lib.rs`)

The accessor's in-process state is its version counter and its local cache
(a `HashMap<String, PyObject>` storing deserialized values, modelled as an
association list over an arbitrary value type `α`).  The external
collaborators — the Redis connection, the redlock manager, and the
serializer/deserializer pair (bincode plus the cloudpickle fallback) — are
oracle parameters of each call, supplied through environment records, per
spec §6 which confines them to their interface boundary. -/

/-- Outcome of one `lock_manager.lock` attempt: `Ok(Some)`, `Ok(None)` (lock
currently held elsewhere) or `Err` (transport error). -/
inductive LockAttempt where
  | acquired
  | busy
  | transportErr
deriving DecidableEq

/-- Error taxonomy of the accessor call surface (spec §7).  `panicked` marks
the Rust panic of `bulk_set`'s critical section when the stripped key lookup
`items.get_item(...).unwrap()` fails; it is not a returned error. -/
inductive AccErr where
  | encoding
  | lockTimeout
  | lockTransport
  | commit
  | keyNotFound
  | storeConn
  | decodeFail
  | panicked
deriving DecidableEq

/-- Result of a write call. -/
inductive CallRes where
  | ok
  | err (e : AccErr)
deriving DecidableEq

/-- `max_lock_attempts`, set in the constructor. -/
def maxLockAttempts : Nat := 3

/-- The fixed backoff: `std::thread::sleep(Duration::from_millis(100))`. -/
def lockRetrySleepMs : Nat := 100

def emptyString : String := ""

def starString : String := "*"

/-- `MOTION_STATE:<component_name>__<instance_id>/` — the namespace prefix. -/
def statePfxStr (comp inst : String) : String :=
  "MOTION_STATE:" ++ comp ++ "__" ++ inst ++ "/"

/-- The fully-qualified storage key of a caller key. -/
def stateKeyName (comp inst key : String) : String :=
  statePfxStr comp inst ++ key

/-- `MOTION_VERSION:<component_name>__<instance_id>`. -/
def versionKeyName (comp inst : String) : String :=
  "MOTION_VERSION:" ++ comp ++ "__" ++ inst

/-- `MOTION_LOCK:<component_name>__<instance_id>`. -/
def lockNameStr (comp inst : String) : String :=
  "MOTION_LOCK:" ++ comp ++ "__" ++ inst

/-- `HashMap::insert` on the association-list model: replace in place or
append. -/
def insertAssoc {α : Type} : List (String × α) → String → α → List (String × α)
  | [], k, v => [(k, v)]
  | (k0, v0) :: t, k, v =>
    if k0 = k then (k, v) :: t else (k0, v0) :: insertAssoc t k v

/-- `HashMap::remove`. -/
def removeAssoc {α : Type} : List (String × α) → String → List (String × α)
  | [], _ => []
  | (k0, v0) :: t, k => if k0 = k then t else (k0, v0) :: removeAssoc t k

/-- `HashMap::get`. -/
def lookupAssoc {α : Type} : List (String × α) → String → Option α
  | [], _ => none
  | (k0, v0) :: t, k => if k0 = k then some v0 else lookupAssoc t k

/-- The rollback loop of `bulk_set`: remove each written keyname. -/
def removeKeys {α : Type} : List (String × α) → List String → List (String × α)
  | cache, [] => cache
  | cache, k :: ks => removeKeys (removeAssoc cache k) ks

/-- In-process accessor state: the version counter and the local cache. -/
structure AccState (α : Type) where
  version : Nat
  cache : List (String × α)
deriving DecidableEq

/-- One batched write: `SET` (no ttl) or `SETEX` (with ttl). -/
structure StoreWrite where
  key : String
  data : List Nat
  ttl : Option Nat
deriving DecidableEq

/-- Observables of one write call: its returned result, the state after it,
how many lock attempts and 100 ms sleeps the acquire loop used, whether this
call acquired the lock, how many times it released it, and the atomic batch
it submitted (`none` when `pipeline.query` was never reached). -/
structure CallTrace (α : Type) where
  result : CallRes
  state : AccState α
  lockAttempts : Nat
  sleeps : Nat
  acquiredLock : Bool
  unlocks : Nat
  batch : Option (List StoreWrite)
deriving DecidableEq

inductive LockLoopRes where
  | got
  | timedOut
  | transportFail
deriving DecidableEq

/-- The acquire retry loop (`for _ in 0..max_lock_attempts`): `Ok(Some)`
breaks with the lock, `Ok(None)` sleeps 100 ms and retries, `Err` returns
immediately.  Returns the loop outcome, the attempts used and the sleeps
performed; `f i` is the oracle outcome of the `i`-th attempt. -/
def lockLoopRun (f : Nat → LockAttempt) : Nat → Nat → LockLoopRes × Nat × Nat
  | 0, _ => (.timedOut, 0, 0)
  | n + 1, i =>
    match f i with
    | .acquired => (.got, 1, 0)
    | .transportErr => (.transportFail, 1, 0)
    | .busy =>
      let r := lockLoopRun f n (i + 1)
      (r.1, r.2.1 + 1, r.2.2 + 1)

/-- Oracles of one `set` call: the serialization outcome of its value, the
lock-attempt outcomes, and whether the atomic pipeline commit succeeds. -/
structure SetEnv where
  encoded : Option (List Nat)
  lockOutcome : Nat → LockAttempt
  commitOk : Bool

/-- The critical section of `set`, entered with the lock held (acquired with
`a` attempts and `s` sleeps): optimistically insert into the cache and bump
the version; submit the two-command atomic pipeline; on commit failure
remove the cache entry, decrement the version and release; on success
release. -/
def runSetLocked {α : Type} (comp inst : String) (st : AccState α) (key : String)
    (value : α) (bytes : List Nat) (commitOk : Bool) (a s : Nat) : CallTrace α :=
  let keyname := stateKeyName comp inst key
  let cache1 := insertAssoc st.cache keyname value
  let v1 := st.version + 1
  let writes := [⟨keyname, bytes, none⟩,
    ⟨versionKeyName comp inst, natDecRepr v1, none⟩]
  if commitOk then
    ⟨.ok, ⟨v1, cache1⟩, a, s, true, 1, some writes⟩
  else
    ⟨.err .commit, ⟨v1 - 1, removeAssoc cache1 keyname⟩, a, s, true, 1,
      some writes⟩

/-- The lock phase of `set`: run the acquire loop, fail on transport error
or exhaustion, else enter the critical section. -/
def runSetWithLock {α : Type} (comp inst : String) (st : AccState α) (key : String)
    (value : α) (bytes : List Nat) (lockOutcome : Nat → LockAttempt)
    (commitOk : Bool) : CallTrace α :=
  match lockLoopRun lockOutcome maxLockAttempts 0 with
  | (.transportFail, a, s) => ⟨.err .lockTransport, st, a, s, false, 0, none⟩
  | (.timedOut, a, s) => ⟨.err .lockTimeout, st, a, s, false, 0, none⟩
  | (.got, a, s) => runSetLocked comp inst st key value bytes commitOk a s

/-- `StateAccessor::set` (src/src/lib.rs:97-183): encode, then take the lock
phase into the critical section. -/
def runSet {α : Type} (comp inst : String) (st : AccState α) (key : String)
    (value : α) (env : SetEnv) : CallTrace α :=
  match env.encoded with
  | none => ⟨.err .encoding, st, 0, 0, false, 0, none⟩
  | some bytes =>
    runSetWithLock comp inst st key value bytes env.lockOutcome env.commitOk

/-- Oracles of one `bulk_set` call: the per-value serialization outcome, the
lock-attempt outcomes, and the commit outcome. -/
structure BulkEnv (α : Type) where
  encode : α → Option (List Nat)
  lockOutcome : Nat → LockAttempt
  commitOk : Bool

/-- The preserialization loop of `bulk_set`: encode every item up front
(TempValue items contribute their inner value and their ttl), building
`(keyname, bytes, ttl)` triples; the first failing encode aborts the call. -/
def preserialize {α : Type} (comp inst : String) (enc : α → Option (List Nat)) :
    List (String × α × Option Nat) → Option (List (String × List Nat × Option Nat))
  | [] => some []
  | (k, v, ttl) :: rest =>
    match enc v with
    | none => none
    | some b =>
      match preserialize comp inst enc rest with
      | none => none
      | some tail => some ((stateKeyName comp inst k, b, ttl) :: tail)

/-- `items.get_item(key)`: PyDict lookup among the call's items. -/
def lookupItem {α : Type} : List (String × α × Option Nat) → String → Option α
  | [], _ => none
  | (k, v, _) :: t, key => if k = key then some v else lookupItem t key

/-- `str::replace` core on character lists: replace every non-overlapping
occurrence of `pat` left to right.  The namespace prefix and `"*"` patterns
of the source are always nonempty, so the empty-pattern case (which Rust
treats as inserting between characters) is irrelevant here and copies the
input.  Any `fuel > s.length` is sufficient. -/
def replaceListAux (pat rep : List Char) : Nat → List Char → List Char
  | 0, s => s
  | _ + 1, [] => []
  | fuel + 1, c :: rest =>
    if pat ≠ [] ∧ (c :: rest).take pat.length = pat then
      rep ++ replaceListAux pat rep fuel ((c :: rest).drop pat.length)
    else c :: replaceListAux pat rep fuel rest

/-- `str::replace`. -/
def replaceAll (s pat rep : String) : String :=
  ⟨replaceListAux pat.data rep.data (s.data.length + 1) s.data⟩

/-- The cache-fill loop of the critical section of `bulk_set`: for each
serialized item, strip the namespace prefix from its keyname with
`str::replace`, look the stripped key up among the original items
(`.unwrap()` — a panic if absent), and insert the unserialized value into
the cache.  Returns whether it panicked and the cache reached. -/
def bulkFill {α : Type} (pfxS : String) (items : List (String × α × Option Nat)) :
    List (String × List Nat × Option Nat) → List (String × α) →
      Bool × List (String × α)
  | [], cache => (false, cache)
  | (kn, _, _) :: rest, cache =>
    match lookupItem items (replaceAll kn pfxS emptyString) with
    | none => (true, cache)
    | some v => bulkFill pfxS items rest (insertAssoc cache kn v)

/-- The critical section of `bulk_set`, entered with `acq` recording whether
this call acquired the lock (`a` attempts, `s` sleeps): fill the cache from
the items (a failed stripped-key lookup panics before the version bump and
before the batch is submitted, and skips the release); bump the version
once; submit the atomic batch (`SETEX` for ttl items, `SET` otherwise, then
the version write); on failure remove every written keyname from the cache,
decrement the version once and release the lock if acquired here; on
success release likewise. -/
def runBulkCritical {α : Type} (comp inst : String) (st : AccState α)
    (items : List (String × α × Option Nat))
    (ser : List (String × List Nat × Option Nat)) (commitOk : Bool)
    (a s : Nat) (acq : Bool) : CallTrace α :=
  let fill := bulkFill (statePfxStr comp inst) items ser st.cache
  if fill.1 then
    ⟨.err .panicked, ⟨st.version, fill.2⟩, a, s, acq, 0, none⟩
  else
    let v1 := st.version + 1
    let writes := ser.map (fun it => StoreWrite.mk it.1 it.2.1 it.2.2) ++
      [⟨versionKeyName comp inst, natDecRepr v1, none⟩]
    if commitOk then
      ⟨.ok, ⟨v1, fill.2⟩, a, s, acq, if acq then 1 else 0, some writes⟩
    else
      ⟨.err .commit,
        ⟨v1 - 1, removeKeys fill.2
          (items.map (fun it => stateKeyName comp inst it.1))⟩,
        a, s, acq, if acq then 1 else 0, some writes⟩

/-- The lock phase of a non-migration `bulk_set`. -/
def runBulkWithLock {α : Type} (comp inst : String) (st : AccState α)
    (items : List (String × α × Option Nat))
    (ser : List (String × List Nat × Option Nat))
    (lockOutcome : Nat → LockAttempt) (commitOk : Bool) : CallTrace α :=
  match lockLoopRun lockOutcome maxLockAttempts 0 with
  | (.transportFail, a, s) => ⟨.err .lockTransport, st, a, s, false, 0, none⟩
  | (.timedOut, a, s) => ⟨.err .lockTimeout, st, a, s, false, 0, none⟩
  | (.got, a, s) => runBulkCritical comp inst st items ser commitOk a s true

/-- `StateAccessor::bulk_set` (src/src/lib.rs:185-327): preserialize all
items (fail fast, before any lock or store interaction); a migration call
(`from_migration = true`, the skip-lock mode) enters the critical section
with no acquire and no release, any other call goes through the lock
phase. -/
def runBulkSet {α : Type} (comp inst : String) (st : AccState α)
    (items : List (String × α × Option Nat)) (fromMigration : Bool)
    (env : BulkEnv α) : CallTrace α :=
  match preserialize comp inst env.encode items with
  | none => ⟨.err .encoding, st, 0, 0, false, 0, none⟩
  | some ser =>
    if fromMigration then
      runBulkCritical comp inst st items ser env.commitOk 0 0 false
    else
      runBulkWithLock comp inst st items ser env.lockOutcome env.commitOk

/-- Result of one store `GET`. -/
inductive StoreReadRes where
  | found (data : List Nat)
  | missing
  | connErr
deriving DecidableEq

/-- Oracles of one `get` call: the store contents and the deserializer. -/
structure GetEnv (α : Type) where
  store : String → StoreReadRes
  decodeV : List Nat → Option α

/-- Result of a read call. -/
inductive GetRes (α : Type) where
  | ok (v : α)
  | err (e : AccErr)
deriving DecidableEq

/-- Observables of one `get` call. -/
structure GetTrace (α : Type) where
  result : GetRes α
  state : AccState α
  storeReads : Nat
deriving DecidableEq

/-- `StateAccessor::get` (src/src/lib.rs:329-362): serve the cached object if
present (no store read); otherwise read the fully-qualified key, and on a
hit deserialize, populate the cache, and return; a missing key is the
distinct `PyKeyError`, a transport failure the generic runtime error. -/
def runGet {α : Type} (comp inst : String) (st : AccState α) (key : String)
    (env : GetEnv α) : GetTrace α :=
  let keyname := stateKeyName comp inst key
  match lookupAssoc st.cache keyname with
  | some v => ⟨.ok v, st, 0⟩
  | none =>
    match env.store keyname with
    | .found data =>
      match env.decodeV data with
      | some v => ⟨.ok v, ⟨st.version, insertAssoc st.cache keyname v⟩, 1⟩
      | none => ⟨.err .decodeFail, st, 1⟩
    | .missing => ⟨.err .keyNotFound, st, 1⟩
    | .connErr => ⟨.err .storeConn, st, 1⟩

/-- `StateAccessor::keys` (src/src/lib.rs:392-408): enumerate the namespace
pattern `MOTION_STATE:<comp>__<inst>/*` (the store's answer is the oracle
`storedKeys`), then strip `pattern.replace("*", "")` from each key with
`str::replace`. -/
def runKeys (comp inst : String) (storedKeys : List String) : List String :=
  let pattern := statePfxStr comp inst ++ starString
  let replaced := replaceAll pattern starString emptyString
  storedKeys.map (fun k => replaceAll k replaced emptyString)

/-- One write call of a trace: a `set` or a `bulk_set`. -/
inductive WriteOp (α : Type) where
  | single (key : String) (value : α) (env : SetEnv)
  | bulk (items : List (String × α × Option Nat)) (fromMigration : Bool)
      (env : BulkEnv α)

def runWrite {α : Type} (comp inst : String) (st : AccState α) :
    WriteOp α → CallTrace α
  | .single key value env => runSet comp inst st key value env
  | .bulk items m env => runBulkSet comp inst st items m env

/-- Run a sequence of write calls, each from the state the previous one
left, collecting every call's result. -/
def execWrites {α : Type} (comp inst : String) :
    AccState α → List (WriteOp α) → AccState α × List CallRes
  | st, [] => (st, [])
  | st, op :: ops =>
    let t := runWrite comp inst st op
    let r := execWrites comp inst t.state ops
    (r.1, t.result :: r.2)

/-! ## Lock loop lemmas -/

theorem lockLoopRun_attempts_le (f : Nat → LockAttempt) :
    ∀ n i, (lockLoopRun f n i).2.1 ≤ n := by
  intro n
  induction n with
  | zero => intro i; simp [lockLoopRun]
  | succ m ih =>
    intro i
    unfold lockLoopRun
    cases f i with
    | acquired => simp
    | transportErr => simp
    | busy =>
      simp only []
      have := ih (i + 1)
      omega

/-- A lock held elsewhere on every attempt exhausts the bound: `n` attempts,
`n` sleeps, timeout. -/
theorem lockLoopRun_all_busy (f : Nat → LockAttempt) :
    ∀ n i, (∀ j, j < n → f (i + j) = .busy) →
      lockLoopRun f n i = (.timedOut, n, n) := by
  intro n
  induction n with
  | zero => intro i _; rfl
  | succ m ih =>
    intro i h
    unfold lockLoopRun
    have h0 : f i = .busy := by
      have := h 0 (by omega)
      simpa using this
    rw [h0]
    have := ih (i + 1) (fun j hj => by
      have := h (j + 1) (by omega)
      rw [← this]
      congr 1
      omega)
    simp only [this]

/-- A transport error on attempt `j` (after `j` busy attempts) aborts the
loop at once: `j + 1` attempts, no further retries. -/
theorem lockLoopRun_transport (f : Nat → LockAttempt) :
    ∀ n i j, j < n → (∀ l, l < j → f (i + l) = .busy) →
      f (i + j) = .transportErr →
      lockLoopRun f n i = (.transportFail, j + 1, j) := by
  intro n
  induction n with
  | zero => intro i j h; omega
  | succ m ih =>
    intro i j hj hbusy htr
    unfold lockLoopRun
    cases j with
    | zero =>
      have h0 : f i = .transportErr := by simpa using htr
      rw [h0]
    | succ jj =>
      have h0 : f i = .busy := by
        have := hbusy 0 (by omega)
        simpa using this
      rw [h0]
      have := ih (i + 1) jj (by omega)
        (fun l hl => by
          have := hbusy (l + 1) (by omega)
          rw [← this]
          congr 1
          omega)
        (by
          rw [← htr]
          congr 1
          omega)
      simp only [this]

/-! ## Unfolding lemmas for the write paths -/

theorem runSet_enc_none {α : Type} (comp inst : String) (st : AccState α)
    (key : String) (value : α) (env : SetEnv) (h : env.encoded = none) :
    runSet comp inst st key value env = ⟨.err .encoding, st, 0, 0, false, 0, none⟩ := by
  unfold runSet
  rw [h]

theorem runSet_enc_some {α : Type} (comp inst : String) (st : AccState α)
    (key : String) (value : α) (env : SetEnv) (bytes : List Nat)
    (h : env.encoded = some bytes) :
    runSet comp inst st key value env =
      runSetWithLock comp inst st key value bytes env.lockOutcome env.commitOk := by
  unfold runSet
  rw [h]

theorem runSetWithLock_transport {α : Type} (comp inst : String) (st : AccState α)
    (key : String) (value : α) (bytes : List Nat) (lockOutcome : Nat → LockAttempt)
    (commitOk : Bool) (a s : Nat)
    (hl : lockLoopRun lockOutcome maxLockAttempts 0 = (.transportFail, a, s)) :
    runSetWithLock comp inst st key value bytes lockOutcome commitOk =
      ⟨.err .lockTransport, st, a, s, false, 0, none⟩ := by
  unfold runSetWithLock
  rw [hl]

theorem runSetWithLock_timeout {α : Type} (comp inst : String) (st : AccState α)
    (key : String) (value : α) (bytes : List Nat) (lockOutcome : Nat → LockAttempt)
    (commitOk : Bool) (a s : Nat)
    (hl : lockLoopRun lockOutcome maxLockAttempts 0 = (.timedOut, a, s)) :
    runSetWithLock comp inst st key value bytes lockOutcome commitOk =
      ⟨.err .lockTimeout, st, a, s, false, 0, none⟩ := by
  unfold runSetWithLock
  rw [hl]

theorem runSetWithLock_got {α : Type} (comp inst : String) (st : AccState α)
    (key : String) (value : α) (bytes : List Nat) (lockOutcome : Nat → LockAttempt)
    (commitOk : Bool) (a s : Nat)
    (hl : lockLoopRun lockOutcome maxLockAttempts 0 = (.got, a, s)) :
    runSetWithLock comp inst st key value bytes lockOutcome commitOk =
      runSetLocked comp inst st key value bytes commitOk a s := by
  unfold runSetWithLock
  rw [hl]

theorem runBulkSet_pre_none {α : Type} (comp inst : String) (st : AccState α)
    (items : List (String × α × Option Nat)) (m : Bool) (env : BulkEnv α)
    (h : preserialize comp inst env.encode items = none) :
    runBulkSet comp inst st items m env =
      ⟨.err .encoding, st, 0, 0, false, 0, none⟩ := by
  unfold runBulkSet
  rw [h]

theorem runBulkSet_pre_some {α : Type} (comp inst : String) (st : AccState α)
    (items : List (String × α × Option Nat)) (m : Bool) (env : BulkEnv α)
    (ser : List (String × List Nat × Option Nat))
    (h : preserialize comp inst env.encode items = some ser) :
    runBulkSet comp inst st items m env =
      (if m then runBulkCritical comp inst st items ser env.commitOk 0 0 false
       else runBulkWithLock comp inst st items ser env.lockOutcome env.commitOk) := by
  unfold runBulkSet
  rw [h]

theorem runBulkWithLock_transport {α : Type} (comp inst : String) (st : AccState α)
    (items : List (String × α × Option Nat))
    (ser : List (String × List Nat × Option Nat))
    (lockOutcome : Nat → LockAttempt) (commitOk : Bool) (a s : Nat)
    (hl : lockLoopRun lockOutcome maxLockAttempts 0 = (.transportFail, a, s)) :
    runBulkWithLock comp inst st items ser lockOutcome commitOk =
      ⟨.err .lockTransport, st, a, s, false, 0, none⟩ := by
  unfold runBulkWithLock
  rw [hl]

theorem runBulkWithLock_timeout {α : Type} (comp inst : String) (st : AccState α)
    (items : List (String × α × Option Nat))
    (ser : List (String × List Nat × Option Nat))
    (lockOutcome : Nat → LockAttempt) (commitOk : Bool) (a s : Nat)
    (hl : lockLoopRun lockOutcome maxLockAttempts 0 = (.timedOut, a, s)) :
    runBulkWithLock comp inst st items ser lockOutcome commitOk =
      ⟨.err .lockTimeout, st, a, s, false, 0, none⟩ := by
  unfold runBulkWithLock
  rw [hl]

theorem runBulkWithLock_got {α : Type} (comp inst : String) (st : AccState α)
    (items : List (String × α × Option Nat))
    (ser : List (String × List Nat × Option Nat))
    (lockOutcome : Nat → LockAttempt) (commitOk : Bool) (a s : Nat)
    (hl : lockLoopRun lockOutcome maxLockAttempts 0 = (.got, a, s)) :
    runBulkWithLock comp inst st items ser lockOutcome commitOk =
      runBulkCritical comp inst st items ser commitOk a s true := by
  unfold runBulkWithLock
  rw [hl]

theorem runSetLocked_fields {α : Type} (comp inst : String) (st : AccState α)
    (key : String) (value : α) (bytes : List Nat) (commitOk : Bool) (a s : Nat) :
    (runSetLocked comp inst st key value bytes commitOk a s).lockAttempts = a ∧
    (runSetLocked comp inst st key value bytes commitOk a s).sleeps = s ∧
    (runSetLocked comp inst st key value bytes commitOk a s).acquiredLock = true ∧
    (runSetLocked comp inst st key value bytes commitOk a s).unlocks = 1 := by
  unfold runSetLocked
  cases commitOk <;> simp

theorem runBulkCritical_fields {α : Type} (comp inst : String) (st : AccState α)
    (items : List (String × α × Option Nat))
    (ser : List (String × List Nat × Option Nat)) (commitOk : Bool)
    (a s : Nat) (acq : Bool) :
    (runBulkCritical comp inst st items ser commitOk a s acq).lockAttempts = a ∧
    (runBulkCritical comp inst st items ser commitOk a s acq).sleeps = s ∧
    (runBulkCritical comp inst st items ser commitOk a s acq).acquiredLock = acq := by
  unfold runBulkCritical
  cases hf : (bulkFill (statePfxStr comp inst) items ser st.cache).1 <;>
    cases commitOk <;> simp [hf]

/-! ## Claim theorems: the orchestrator -/

/-- C5.  Lock acquisition bound: every `set` call and every `bulk_set` call
with `skip_lock` false attempts the lock at most `maxLockAttempts = 3`
times; when the lock is held elsewhere on all attempts, the call sleeps the
fixed 100 ms backoff after each busy attempt and fails with the distinct
lock-timeout error after exhausting attempts, leaving the state untouched; a
transport-level error during attempt `j` fails the call immediately with the
distinct transport error after `j + 1` attempts and no further retries. -/
theorem claim_C5 {α : Type} (comp inst key : String) (value : α)
    (st : AccState α) (env : SetEnv) (items : List (String × α × Option Nat))
    (benv : BulkEnv α) :
    ((runSet comp inst st key value env).lockAttempts ≤ maxLockAttempts ∧
      (runBulkSet comp inst st items false benv).lockAttempts ≤ maxLockAttempts) ∧
    (env.encoded.isSome = true →
      (∀ i, i < maxLockAttempts → env.lockOutcome i = .busy) →
      runSet comp inst st key value env =
        ⟨.err .lockTimeout, st, maxLockAttempts, maxLockAttempts, false, 0, none⟩) ∧
    ((preserialize comp inst benv.encode items).isSome = true →
      (∀ i, i < maxLockAttempts → benv.lockOutcome i = .busy) →
      runBulkSet comp inst st items false benv =
        ⟨.err .lockTimeout, st, maxLockAttempts, maxLockAttempts, false, 0, none⟩) ∧
    (∀ j, j < maxLockAttempts → (∀ l, l < j → env.lockOutcome l = .busy) →
      env.lockOutcome j = .transportErr → env.encoded.isSome = true →
      runSet comp inst st key value env =
        ⟨.err .lockTransport, st, j + 1, j, false, 0, none⟩) ∧
    (∀ j, j < maxLockAttempts → (∀ l, l < j → benv.lockOutcome l = .busy) →
      benv.lockOutcome j = .transportErr →
      (preserialize comp inst benv.encode items).isSome = true →
      runBulkSet comp inst st items false benv =
        ⟨.err .lockTransport, st, j + 1, j, false, 0, none⟩) ∧
    maxLockAttempts = 3 ∧ lockRetrySleepMs = 100 := by
  refine ⟨⟨?_, ?_⟩, ?_, ?_, ?_, ?_, rfl, rfl⟩
  · cases henc : env.encoded with
    | none => rw [runSet_enc_none comp inst st key value env henc]; exact Nat.zero_le _
    | some bytes =>
      rw [runSet_enc_some comp inst st key value env bytes henc]
      rcases hl : lockLoopRun env.lockOutcome maxLockAttempts 0 with ⟨r, a, s⟩
      have ha := lockLoopRun_attempts_le env.lockOutcome maxLockAttempts 0
      rw [hl] at ha
      cases r with
      | transportFail =>
        rw [runSetWithLock_transport comp inst st key value bytes _ _ a s hl]
        exact ha
      | timedOut =>
        rw [runSetWithLock_timeout comp inst st key value bytes _ _ a s hl]
        exact ha
      | got =>
        rw [runSetWithLock_got comp inst st key value bytes _ _ a s hl,
          (runSetLocked_fields comp inst st key value bytes env.commitOk a s).1]
        exact ha
  · cases hp : preserialize comp inst benv.encode items with
    | none =>
      rw [runBulkSet_pre_none comp inst st items false benv hp]
      exact Nat.zero_le _
    | some ser =>
      rw [runBulkSet_pre_some comp inst st items false benv ser hp, if_neg Bool.false_ne_true]
      rcases hl : lockLoopRun benv.lockOutcome maxLockAttempts 0 with ⟨r, a, s⟩
      have ha := lockLoopRun_attempts_le benv.lockOutcome maxLockAttempts 0
      rw [hl] at ha
      cases r with
      | transportFail =>
        rw [runBulkWithLock_transport comp inst st items ser _ _ a s hl]
        exact ha
      | timedOut =>
        rw [runBulkWithLock_timeout comp inst st items ser _ _ a s hl]
        exact ha
      | got =>
        rw [runBulkWithLock_got comp inst st items ser _ _ a s hl,
          (runBulkCritical_fields comp inst st items ser benv.commitOk a s true).1]
        exact ha
  · intro hs hbusy
    obtain ⟨bytes, henc⟩ := Option.isSome_iff_exists.mp hs
    have hl : lockLoopRun env.lockOutcome maxLockAttempts 0 =
        (.timedOut, maxLockAttempts, maxLockAttempts) :=
      lockLoopRun_all_busy env.lockOutcome maxLockAttempts 0
        (fun j hj => by simpa using hbusy j hj)
    rw [runSet_enc_some comp inst st key value env bytes henc,
      runSetWithLock_timeout comp inst st key value bytes _ _ _ _ hl]
  · intro hs hbusy
    obtain ⟨ser, hp⟩ := Option.isSome_iff_exists.mp hs
    have hl : lockLoopRun benv.lockOutcome maxLockAttempts 0 =
        (.timedOut, maxLockAttempts, maxLockAttempts) :=
      lockLoopRun_all_busy benv.lockOutcome maxLockAttempts 0
        (fun j hj => by simpa using hbusy j hj)
    rw [runBulkSet_pre_some comp inst st items false benv ser hp,
      if_neg Bool.false_ne_true,
      runBulkWithLock_timeout comp inst st items ser _ _ _ _ hl]
  · intro j hj hbusy htr hs
    obtain ⟨bytes, henc⟩ := Option.isSome_iff_exists.mp hs
    have hl : lockLoopRun env.lockOutcome maxLockAttempts 0 =
        (.transportFail, j + 1, j) :=
      lockLoopRun_transport env.lockOutcome maxLockAttempts 0 j hj
        (fun l hlj => by simpa using hbusy l hlj) (by simpa using htr)
    rw [runSet_enc_some comp inst st key value env bytes henc,
      runSetWithLock_transport comp inst st key value bytes _ _ _ _ hl]
  · intro j hj hbusy htr hs
    obtain ⟨ser, hp⟩ := Option.isSome_iff_exists.mp hs
    have hl : lockLoopRun benv.lockOutcome maxLockAttempts 0 =
        (.transportFail, j + 1, j) :=
      lockLoopRun_transport benv.lockOutcome maxLockAttempts 0 j hj
        (fun l hlj => by simpa using hbusy l hlj) (by simpa using htr)
    rw [runBulkSet_pre_some comp inst st items false benv ser hp,
      if_neg Bool.false_ne_true,
      runBulkWithLock_transport comp inst st items ser _ _ _ _ hl]

/-- C5 witness: with the lock busy on all three attempts a concrete `set`
call times out after exactly three attempts and three sleeps; with a
transport error on the first attempt it fails immediately after one. -/
theorem claim_C5_witness :
    runSet "c" "i" (⟨0, []⟩ : AccState Nat) "k" 0
      ⟨some [48], fun _ => .busy, true⟩ =
      ⟨.err .lockTimeout, ⟨0, []⟩, 3, 3, false, 0, none⟩ ∧
    runSet "c" "i" (⟨0, []⟩ : AccState Nat) "k" 0
      ⟨some [48], fun _ => .transportErr, true⟩ =
      ⟨.err .lockTransport, ⟨0, []⟩, 1, 0, false, 0, none⟩ := by
  constructor
  · exact (claim_C5 "c" "i" "k" 0 ⟨0, []⟩ ⟨some [48], fun _ => .busy, true⟩ []
      ⟨fun _ => some [], fun _ => .busy, true⟩).2.1 rfl (fun i _ => rfl)
  · exact (claim_C5 "c" "i" "k" 0 ⟨0, []⟩ ⟨some [48], fun _ => .transportErr, true⟩ []
      ⟨fun _ => some [], fun _ => .busy, true⟩).2.2.2.1 0 (by decide)
      (fun l hl => absurd hl (Nat.not_lt_zero _)) rfl rfl

theorem runBulkCritical_unlocks {α : Type} (comp inst : String) (st : AccState α)
    (items : List (String × α × Option Nat))
    (ser : List (String × List Nat × Option Nat)) (commitOk : Bool)
    (a s : Nat) (acq : Bool)
    (h : (runBulkCritical comp inst st items ser commitOk a s acq).result ≠
      .err .panicked) :
    (runBulkCritical comp inst st items ser commitOk a s acq).unlocks =
      if acq then 1 else 0 := by
  unfold runBulkCritical at h ⊢
  cases hf : (bulkFill (statePfxStr comp inst) items ser st.cache).1 <;>
    cases commitOk <;> simp [hf] at h ⊢

theorem runBulkCritical_unlocks_noacq {α : Type} (comp inst : String)
    (st : AccState α) (items : List (String × α × Option Nat))
    (ser : List (String × List Nat × Option Nat)) (commitOk : Bool) (a s : Nat) :
    (runBulkCritical comp inst st items ser commitOk a s false).unlocks = 0 := by
  unfold runBulkCritical
  cases hf : (bulkFill (statePfxStr comp inst) items ser st.cache).1 <;>
    cases commitOk <;> simp [hf]

/-- C6.  Lock release on every exit path: a `set` call that acquired the
namespace lock releases it exactly once — on the success path and on the
commit-failure path alike — and a call that never acquired it performs no
release; the same holds for a `bulk_set` call with `skip_lock` false on
every path on which the call returns (the `bulk_set` critical section can
also die in a Rust panic before release, a path on which the call never
returns); a `bulk_set` call with `skip_lock` true makes no lock attempt and
no release. -/
theorem claim_C6 {α : Type} (comp inst key : String) (value : α)
    (st : AccState α) (env : SetEnv) (items : List (String × α × Option Nat))
    (benv : BulkEnv α) :
    ((runSet comp inst st key value env).acquiredLock = true →
      (runSet comp inst st key value env).unlocks = 1) ∧
    ((runSet comp inst st key value env).acquiredLock = false →
      (runSet comp inst st key value env).unlocks = 0) ∧
    ((runBulkSet comp inst st items false benv).acquiredLock = true →
      (runBulkSet comp inst st items false benv).result ≠ .err .panicked →
      (runBulkSet comp inst st items false benv).unlocks = 1) ∧
    ((runBulkSet comp inst st items false benv).acquiredLock = false →
      (runBulkSet comp inst st items false benv).unlocks = 0) ∧
    ((runBulkSet comp inst st items true benv).lockAttempts = 0 ∧
      (runBulkSet comp inst st items true benv).acquiredLock = false ∧
      (runBulkSet comp inst st items true benv).unlocks = 0) := by
  refine ⟨?_, ?_, ?_, ?_, ?_⟩
  · cases henc : env.encoded with
    | none => rw [runSet_enc_none comp inst st key value env henc]; simp
    | some bytes =>
      rw [runSet_enc_some comp inst st key value env bytes henc]
      rcases hl : lockLoopRun env.lockOutcome maxLockAttempts 0 with ⟨r, a, s⟩
      cases r with
      | transportFail =>
        rw [runSetWithLock_transport comp inst st key value bytes _ _ a s hl]; simp
      | timedOut =>
        rw [runSetWithLock_timeout comp inst st key value bytes _ _ a s hl]; simp
      | got =>
        rw [runSetWithLock_got comp inst st key value bytes _ _ a s hl]
        intro _
        exact (runSetLocked_fields comp inst st key value bytes env.commitOk a s).2.2.2
  · cases henc : env.encoded with
    | none => rw [runSet_enc_none comp inst st key value env henc]; intro _; rfl
    | some bytes =>
      rw [runSet_enc_some comp inst st key value env bytes henc]
      rcases hl : lockLoopRun env.lockOutcome maxLockAttempts 0 with ⟨r, a, s⟩
      cases r with
      | transportFail =>
        rw [runSetWithLock_transport comp inst st key value bytes _ _ a s hl]
        intro _; rfl
      | timedOut =>
        rw [runSetWithLock_timeout comp inst st key value bytes _ _ a s hl]
        intro _; rfl
      | got =>
        rw [runSetWithLock_got comp inst st key value bytes _ _ a s hl]
        intro h
        have := (runSetLocked_fields comp inst st key value bytes env.commitOk a s).2.2.1
        rw [this] at h
        exact Bool.noConfusion h
  · cases hp : preserialize comp inst benv.encode items with
    | none => rw [runBulkSet_pre_none comp inst st items false benv hp]; simp
    | some ser =>
      rw [runBulkSet_pre_some comp inst st items false benv ser hp,
        if_neg Bool.false_ne_true]
      rcases hl : lockLoopRun benv.lockOutcome maxLockAttempts 0 with ⟨r, a, s⟩
      cases r with
      | transportFail =>
        rw [runBulkWithLock_transport comp inst st items ser _ _ a s hl]; simp
      | timedOut =>
        rw [runBulkWithLock_timeout comp inst st items ser _ _ a s hl]; simp
      | got =>
        rw [runBulkWithLock_got comp inst st items ser _ _ a s hl]
        intro _ hnp
        rw [runBulkCritical_unlocks comp inst st items ser benv.commitOk a s true hnp]
        rfl
  · cases hp : preserialize comp inst benv.encode items with
    | none => rw [runBulkSet_pre_none comp inst st items false benv hp]; intro _; rfl
    | some ser =>
      rw [runBulkSet_pre_some comp inst st items false benv ser hp,
        if_neg Bool.false_ne_true]
      rcases hl : lockLoopRun benv.lockOutcome maxLockAttempts 0 with ⟨r, a, s⟩
      cases r with
      | transportFail =>
        rw [runBulkWithLock_transport comp inst st items ser _ _ a s hl]
        intro _; rfl
      | timedOut =>
        rw [runBulkWithLock_timeout comp inst st items ser _ _ a s hl]
        intro _; rfl
      | got =>
        rw [runBulkWithLock_got comp inst st items ser _ _ a s hl]
        intro h
        have := (runBulkCritical_fields comp inst st items ser benv.commitOk a s true).2.2
        rw [this] at h
        exact Bool.noConfusion h
  · cases hp : preserialize comp inst benv.encode items with
    | none =>
      rw [runBulkSet_pre_none comp inst st items true benv hp]
      exact ⟨rfl, rfl, rfl⟩
    | some ser =>
      rw [runBulkSet_pre_some comp inst st items true benv ser hp, if_pos rfl]
      exact ⟨(runBulkCritical_fields comp inst st items ser benv.commitOk 0 0 false).1,
        (runBulkCritical_fields comp inst st items ser benv.commitOk 0 0 false).2.2,
        runBulkCritical_unlocks_noacq comp inst st items ser benv.commitOk 0 0⟩

/-- C6 witness: a concrete successful `set` acquires and releases once; a
concrete commit-failing `set` also releases once; a migration `bulk_set`
performs no acquire and no release. -/
theorem claim_C6_witness :
    (runSet "c" "i" (⟨0, []⟩ : AccState Nat) "k" 7
      ⟨some [48], fun _ => .acquired, true⟩).unlocks = 1 ∧
    (runSet "c" "i" (⟨0, []⟩ : AccState Nat) "k" 7
      ⟨some [48], fun _ => .acquired, false⟩).unlocks = 1 ∧
    (runBulkSet "c" "i" (⟨0, []⟩ : AccState Nat) [] true
      ⟨fun _ => some [], fun _ => .acquired, true⟩).lockAttempts = 0 ∧
    (runBulkSet "c" "i" (⟨0, []⟩ : AccState Nat) [] true
      ⟨fun _ => some [], fun _ => .acquired, true⟩).unlocks = 0 := by
  refine ⟨?_, ?_, ?_, ?_⟩
  · exact (claim_C6 "c" "i" "k" 7 ⟨0, []⟩ ⟨some [48], fun _ => .acquired, true⟩ []
      ⟨fun _ => some [], fun _ => .acquired, true⟩).1 rfl
  · exact (claim_C6 "c" "i" "k" 7 ⟨0, []⟩ ⟨some [48], fun _ => .acquired, false⟩ []
      ⟨fun _ => some [], fun _ => .acquired, true⟩).1 rfl
  · exact (claim_C6 "c" "i" "k" 7 ⟨0, []⟩ ⟨some [48], fun _ => .acquired, true⟩ []
      ⟨fun _ => some [], fun _ => .acquired, true⟩).2.2.2.2.1
  · exact (claim_C6 "c" "i" "k" 7 ⟨0, []⟩ ⟨some [48], fun _ => .acquired, true⟩ []
      ⟨fun _ => some [], fun _ => .acquired, true⟩).2.2.2.2.2.2

theorem preserialize_none_iff {α : Type} (comp inst : String)
    (enc : α → Option (List Nat)) :
    ∀ items : List (String × α × Option Nat),
      preserialize comp inst enc items = none ↔
        ∃ p ∈ items, enc p.2.1 = none
  | [] => by simp [preserialize]
  | (k, v, ttl) :: rest => by
    unfold preserialize
    cases he : enc v with
    | none =>
      simp only [true_iff]
      exact ⟨(k, v, ttl), List.mem_cons_self _ _, he⟩
    | some b =>
      cases hp : preserialize comp inst enc rest with
      | none =>
        simp only [true_iff]
        obtain ⟨p, hmem, hpe⟩ := (preserialize_none_iff comp inst enc rest).mp hp
        exact ⟨p, List.mem_cons_of_mem _ hmem, hpe⟩
      | some tail =>
        constructor
        · intro hc
          exact absurd hc (by simp)
        · rintro ⟨p, hp2, hc⟩
          rcases List.mem_cons.mp hp2 with hq | hq
          · subst hq
            rw [he] at hc
            exact Option.noConfusion hc
          · have := (preserialize_none_iff comp inst enc rest).mpr ⟨p, hq, hc⟩
            rw [hp] at this
            exact Option.noConfusion this

theorem runBulkCritical_batch {α : Type} (comp inst : String) (st : AccState α)
    (items : List (String × α × Option Nat))
    (ser : List (String × List Nat × Option Nat)) (commitOk : Bool)
    (a s : Nat) (acq : Bool) :
    (runBulkCritical comp inst st items ser commitOk a s acq).batch = none ∨
    (runBulkCritical comp inst st items ser commitOk a s acq).batch =
      some (ser.map (fun it => StoreWrite.mk it.1 it.2.1 it.2.2) ++
        [⟨versionKeyName comp inst, natDecRepr (st.version + 1), none⟩]) := by
  unfold runBulkCritical
  cases hf : (bulkFill (statePfxStr comp inst) items ser st.cache).1 <;>
    cases commitOk <;> simp [hf]

/-- C4.  Fail-fast encoding in `bulk_set`: the preserialization loop fails
exactly when some item's value fails to encode, and in that case the call
returns the encoding error having made no lock attempt, acquired nothing,
released nothing, submitted no batch, and left the cache and version
exactly as before; whenever preserialization succeeds, the batch this call
may submit is all-or-nothing — either no batch is ever submitted or the
submitted batch contains one write per item plus the version write. -/
theorem claim_C4 {α : Type} (comp inst : String) (st : AccState α)
    (items : List (String × α × Option Nat)) (m : Bool) (benv : BulkEnv α) :
    (preserialize comp inst benv.encode items = none ↔
      ∃ p ∈ items, benv.encode p.2.1 = none) ∧
    (preserialize comp inst benv.encode items = none →
      runBulkSet comp inst st items m benv =
        ⟨.err .encoding, st, 0, 0, false, 0, none⟩) ∧
    (∀ ser, preserialize comp inst benv.encode items = some ser →
      (runBulkSet comp inst st items m benv).batch = none ∨
      (runBulkSet comp inst st items m benv).batch =
        some (ser.map (fun it => StoreWrite.mk it.1 it.2.1 it.2.2) ++
          [⟨versionKeyName comp inst, natDecRepr (st.version + 1), none⟩])) := by
  refine ⟨preserialize_none_iff comp inst benv.encode items, ?_, ?_⟩
  · intro hp
    exact runBulkSet_pre_none comp inst st items m benv hp
  · intro ser hp
    rw [runBulkSet_pre_some comp inst st items m benv ser hp]
    cases m with
    | true =>
      rw [if_pos rfl]
      exact runBulkCritical_batch comp inst st items ser benv.commitOk 0 0 false
    | false =>
      rw [if_neg Bool.false_ne_true]
      rcases hl : lockLoopRun benv.lockOutcome maxLockAttempts 0 with ⟨r, a, s⟩
      cases r with
      | transportFail =>
        rw [runBulkWithLock_transport comp inst st items ser _ _ a s hl]
        exact Or.inl rfl
      | timedOut =>
        rw [runBulkWithLock_timeout comp inst st items ser _ _ a s hl]
        exact Or.inl rfl
      | got =>
        rw [runBulkWithLock_got comp inst st items ser _ _ a s hl]
        exact runBulkCritical_batch comp inst st items ser benv.commitOk a s true

/-- C4 witness: a concrete `bulk_set` whose only item fails to encode
returns the encoding error with no lock attempt, no batch and the state
untouched. -/
theorem claim_C4_witness :
    preserialize "c" "i" (fun _ : Nat => (none : Option (List Nat)))
      [("a", 1, none)] = none ∧
    runBulkSet "c" "i" (⟨5, [("x", 9)]⟩ : AccState Nat) [("a", 1, none)] false
      ⟨fun _ => none, fun _ => .acquired, true⟩ =
      ⟨.err .encoding, ⟨5, [("x", 9)]⟩, 0, 0, false, 0, none⟩ :=
  ⟨rfl, (claim_C4 "c" "i" ⟨5, [("x", 9)]⟩ [("a", 1, none)] false
    ⟨fun _ => none, fun _ => .acquired, true⟩).2.1 rfl⟩

theorem runSetLocked_ok_version {α : Type} (comp inst : String) (st : AccState α)
    (key : String) (value : α) (bytes : List Nat) (commitOk : Bool) (a s : Nat)
    (h : (runSetLocked comp inst st key value bytes commitOk a s).result = .ok) :
    (runSetLocked comp inst st key value bytes commitOk a s).state.version =
      st.version + 1 := by
  unfold runSetLocked at h ⊢
  cases commitOk <;> simp at h ⊢

theorem runBulkCritical_ok_version {α : Type} (comp inst : String)
    (st : AccState α) (items : List (String × α × Option Nat))
    (ser : List (String × List Nat × Option Nat)) (commitOk : Bool)
    (a s : Nat) (acq : Bool)
    (h : (runBulkCritical comp inst st items ser commitOk a s acq).result = .ok) :
    (runBulkCritical comp inst st items ser commitOk a s acq).state.version =
      st.version + 1 := by
  unfold runBulkCritical at h ⊢
  cases hf : (bulkFill (statePfxStr comp inst) items ser st.cache).1 <;>
    cases commitOk <;> simp [hf] at h ⊢

/-- A successful write call increments the version by exactly one,
regardless of how many items it carried. -/
theorem runWrite_ok_version {α : Type} (comp inst : String) (st : AccState α)
    (op : WriteOp α) (h : (runWrite comp inst st op).result = .ok) :
    (runWrite comp inst st op).state.version = st.version + 1 := by
  cases op with
  | single key value env =>
    show (runSet comp inst st key value env).state.version = st.version + 1
    replace h : (runSet comp inst st key value env).result = .ok := h
    cases henc : env.encoded with
    | none =>
      rw [runSet_enc_none comp inst st key value env henc] at h
      exact CallRes.noConfusion h
    | some bytes =>
      rw [runSet_enc_some comp inst st key value env bytes henc] at h ⊢
      rcases hl : lockLoopRun env.lockOutcome maxLockAttempts 0 with ⟨r, a, s⟩
      cases r with
      | transportFail =>
        rw [runSetWithLock_transport comp inst st key value bytes _ _ a s hl] at h
        exact CallRes.noConfusion h
      | timedOut =>
        rw [runSetWithLock_timeout comp inst st key value bytes _ _ a s hl] at h
        exact CallRes.noConfusion h
      | got =>
        rw [runSetWithLock_got comp inst st key value bytes _ _ a s hl] at h ⊢
        exact runSetLocked_ok_version comp inst st key value bytes env.commitOk a s h
  | bulk items m benv =>
    show (runBulkSet comp inst st items m benv).state.version = st.version + 1
    replace h : (runBulkSet comp inst st items m benv).result = .ok := h
    cases hp : preserialize comp inst benv.encode items with
    | none =>
      rw [runBulkSet_pre_none comp inst st items m benv hp] at h
      exact CallRes.noConfusion h
    | some ser =>
      rw [runBulkSet_pre_some comp inst st items m benv ser hp] at h ⊢
      cases m with
      | true =>
        rw [if_pos rfl] at h ⊢
        exact runBulkCritical_ok_version comp inst st items ser benv.commitOk 0 0 false h
      | false =>
        rw [if_neg Bool.false_ne_true] at h ⊢
        rcases hl : lockLoopRun benv.lockOutcome maxLockAttempts 0 with ⟨r, a, s⟩
        cases r with
        | transportFail =>
          rw [runBulkWithLock_transport comp inst st items ser _ _ a s hl] at h
          exact CallRes.noConfusion h
        | timedOut =>
          rw [runBulkWithLock_timeout comp inst st items ser _ _ a s hl] at h
          exact CallRes.noConfusion h
        | got =>
          rw [runBulkWithLock_got comp inst st items ser _ _ a s hl] at h ⊢
          exact runBulkCritical_ok_version comp inst st items ser benv.commitOk a s true h

theorem execWrites_ok_version {α : Type} (comp inst : String) :
    ∀ (ops : List (WriteOp α)) (st : AccState α),
      (∀ r ∈ (execWrites comp inst st ops).2, r = .ok) →
      (execWrites comp inst st ops).1.version = st.version + ops.length := by
  intro ops
  induction ops with
  | nil => intro st _; rfl
  | cons op rest ih =>
    intro st hall
    have hres : (execWrites comp inst st (op :: rest)).2 =
        (runWrite comp inst st op).result ::
          (execWrites comp inst (runWrite comp inst st op).state rest).2 := rfl
    have hst : (execWrites comp inst st (op :: rest)).1 =
        (execWrites comp inst (runWrite comp inst st op).state rest).1 := rfl
    have hok : (runWrite comp inst st op).result = .ok :=
      hall _ (by rw [hres]; exact List.mem_cons_self _ _)
    have hv := runWrite_ok_version comp inst st op hok
    rw [hst, ih (runWrite comp inst st op).state
      (fun r hr => hall r (by rw [hres]; exact List.mem_cons_of_mem _ hr)), hv]
    simp only [List.length_cons]
    omega

/-- C3.  Version monotonicity: after any sequence of `N` successful write
calls (any mix of `set` and `bulk_set`, each `bulk_set` counting once
regardless of item count) with zero failures, the in-process version equals
the initial version plus `N`; and no successful call ever decreases the
counter. -/
theorem claim_C3 {α : Type} (comp inst : String) (st : AccState α)
    (ops : List (WriteOp α)) :
    ((∀ r ∈ (execWrites comp inst st ops).2, r = .ok) →
      (execWrites comp inst st ops).1.version = st.version + ops.length) ∧
    (∀ (st2 : AccState α) (op : WriteOp α),
      (runWrite comp inst st2 op).result = .ok →
      st2.version ≤ (runWrite comp inst st2 op).state.version) :=
  ⟨execWrites_ok_version comp inst ops st,
   fun st2 op h => by rw [runWrite_ok_version comp inst st2 op h]; omega⟩

/-- C3 witness: a concrete two-call trace (one `set`, one single-item
`bulk_set`, both committing) takes the version from 5 to exactly 7. -/
theorem claim_C3_witness :
    (execWrites "c" "i" (⟨5, []⟩ : AccState Nat)
      [.single "k" 1 ⟨some [49], fun _ => .acquired, true⟩,
       .bulk [("b", 2, none)] false
         ⟨fun _ => some [50], fun _ => .acquired, true⟩]).1.version = 5 + 2 :=
  (claim_C3 "c" "i" (⟨5, []⟩ : AccState Nat)
    [.single "k" 1 ⟨some [49], fun _ => .acquired, true⟩,
     .bulk [("b", 2, none)] false
       ⟨fun _ => some [50], fun _ => .acquired, true⟩]).1 (by decide)

/-! ## Cache lemmas for rollback analysis -/

theorem lookupAssoc_cons {α : Type} (k0 : String) (v0 : α)
    (t : List (String × α)) (k : String) :
    lookupAssoc ((k0, v0) :: t) k =
      if k0 = k then some v0 else lookupAssoc t k := rfl

theorem insertAssoc_cons {α : Type} (k0 : String) (v0 : α)
    (t : List (String × α)) (k : String) (v : α) :
    insertAssoc ((k0, v0) :: t) k v =
      if k0 = k then (k, v) :: t else (k0, v0) :: insertAssoc t k v := rfl

theorem removeAssoc_cons {α : Type} (k0 : String) (v0 : α)
    (t : List (String × α)) (k : String) :
    removeAssoc ((k0, v0) :: t) k =
      if k0 = k then t else (k0, v0) :: removeAssoc t k := rfl

theorem removeAssoc_insertAssoc_of_absent {α : Type} :
    ∀ (cache : List (String × α)) (k : String) (v : α),
      lookupAssoc cache k = none →
      removeAssoc (insertAssoc cache k v) k = cache
  | [], k, v, _ => by simp [insertAssoc, removeAssoc]
  | (k0, v0) :: t, k, v, h => by
    rw [lookupAssoc_cons] at h
    by_cases hk : k0 = k
    · rw [if_pos hk] at h
      exact Option.noConfusion h
    · rw [if_neg hk] at h
      rw [insertAssoc_cons, if_neg hk, removeAssoc_cons, if_neg hk,
        removeAssoc_insertAssoc_of_absent t k v h]

theorem insertAssoc_append_of_absent {α : Type} :
    ∀ (cache : List (String × α)) (k : String) (v : α),
      lookupAssoc cache k = none →
      insertAssoc cache k v = cache ++ [(k, v)]
  | [], k, v, _ => rfl
  | (k0, v0) :: t, k, v, h => by
    rw [lookupAssoc_cons] at h
    by_cases hk : k0 = k
    · rw [if_pos hk] at h
      exact Option.noConfusion h
    · rw [if_neg hk] at h
      rw [insertAssoc_cons, if_neg hk, insertAssoc_append_of_absent t k v h]
      rfl

theorem lookupAssoc_append_of_absent {α : Type} :
    ∀ (c d : List (String × α)) (k : String),
      lookupAssoc c k = none →
      lookupAssoc (c ++ d) k = lookupAssoc d k
  | [], d, k, _ => rfl
  | (k0, v0) :: t, d, k, h => by
    rw [lookupAssoc_cons] at h
    by_cases hk : k0 = k
    · rw [if_pos hk] at h
      exact Option.noConfusion h
    · rw [if_neg hk] at h
      show lookupAssoc ((k0, v0) :: (t ++ d)) k = lookupAssoc d k
      rw [lookupAssoc_cons, if_neg hk]
      exact lookupAssoc_append_of_absent t d k h

theorem removeAssoc_append_first {α : Type} :
    ∀ (c : List (String × α)) (k : String) (v : α) (rest : List (String × α)),
      lookupAssoc c k = none →
      removeAssoc (c ++ (k, v) :: rest) k = c ++ rest
  | [], k, v, rest, _ => by
    show removeAssoc ((k, v) :: rest) k = rest
    rw [removeAssoc_cons, if_pos rfl]
  | (k0, v0) :: t, k, v, rest, h => by
    rw [lookupAssoc_cons] at h
    by_cases hk : k0 = k
    · rw [if_pos hk] at h
      exact Option.noConfusion h
    · rw [if_neg hk] at h
      show removeAssoc ((k0, v0) :: (t ++ (k, v) :: rest)) k = (k0, v0) :: (t ++ rest)
      rw [removeAssoc_cons, if_neg hk, removeAssoc_append_first t k v rest h]

/-- Removing freshly appended pairs (whose keys were absent and are
pairwise distinct) restores the original cache. -/
theorem removeKeys_append {α : Type} :
    ∀ (pairs c : List (String × α)),
      (∀ k ∈ pairs.map Prod.fst, lookupAssoc c k = none) →
      (pairs.map Prod.fst).Nodup →
      removeKeys (c ++ pairs) (pairs.map Prod.fst) = c
  | [], c, _, _ => by simp [removeKeys]
  | (k, v) :: ps, c, habs, hnd => by
    show removeKeys (c ++ (k, v) :: ps) (k :: ps.map Prod.fst) = c
    unfold removeKeys
    rw [removeAssoc_append_first c k v ps (habs k (by simp))]
    simp only [List.map_cons, List.nodup_cons] at hnd
    exact removeKeys_append ps c
      (fun k2 hk2 => habs k2 (by simp [hk2]))
      hnd.2

/-- When the cache-fill loop of `bulk_set` does not panic and every written
keyname is absent from the cache (and the keynames are pairwise distinct),
the loop appends entries whose keys are exactly the serialized keynames. -/
theorem bulkFill_append {α : Type} (pfxS : String)
    (items : List (String × α × Option Nat)) :
    ∀ (ser : List (String × List Nat × Option Nat)) (c : List (String × α)),
      (bulkFill pfxS items ser c).1 = false →
      (∀ kn ∈ ser.map Prod.fst, lookupAssoc c kn = none) →
      (ser.map Prod.fst).Nodup →
      ∃ pairs : List (String × α),
        (bulkFill pfxS items ser c).2 = c ++ pairs ∧
        pairs.map Prod.fst = ser.map Prod.fst
  | [], c, _, _, _ => ⟨[], by simp [bulkFill], rfl⟩
  | (kn, b, ttl) :: rest, c, hnp, habs, hnd => by
    unfold bulkFill at hnp ⊢
    cases hli : lookupItem items (replaceAll kn pfxS emptyString) with
    | none =>
      rw [hli] at hnp
      exact Bool.noConfusion hnp
    | some v =>
      rw [hli] at hnp
      have hknabs : lookupAssoc c kn = none := habs kn (by simp)
      have hins := insertAssoc_append_of_absent c kn v hknabs
      simp only [List.map_cons, List.nodup_cons] at hnd
      have habs2 : ∀ k2 ∈ rest.map Prod.fst,
          lookupAssoc (insertAssoc c kn v) k2 = none := by
        intro k2 hk2
        rw [hins, lookupAssoc_append_of_absent c [(kn, v)] k2
          (habs k2 (by simp [hk2]))]
        unfold lookupAssoc
        rw [if_neg ?_]
        · rfl
        · intro he
          exact hnd.1 (he ▸ hk2)
      obtain ⟨pairs, hfill, hkeys⟩ :=
        bulkFill_append pfxS items rest (insertAssoc c kn v) hnp habs2 hnd.2
      refine ⟨(kn, v) :: pairs, ?_, by simp [hkeys]⟩
      rw [hfill, hins]
      simp

theorem preserialize_keys {α : Type} (comp inst : String)
    (enc : α → Option (List Nat)) :
    ∀ (items : List (String × α × Option Nat))
      (ser : List (String × List Nat × Option Nat)),
      preserialize comp inst enc items = some ser →
      ser.map Prod.fst = items.map (fun p => stateKeyName comp inst p.1)
  | [], ser, h => by
    simp only [preserialize, Option.some.injEq] at h
    subst h
    rfl
  | (k, v, ttl) :: rest, ser, h => by
    unfold preserialize at h
    cases he : enc v with
    | none =>
      simp only [he] at h
      exact Option.noConfusion h
    | some b =>
      simp only [he] at h
      cases hp : preserialize comp inst enc rest with
      | none =>
        simp only [hp] at h
        exact Option.noConfusion h
      | some tail =>
        simp only [hp, Option.some.injEq] at h
        subst h
        simp only [List.map_cons]
        rw [preserialize_keys comp inst enc rest tail hp]

theorem runSetLocked_result_commit {α : Type} (comp inst : String)
    (st : AccState α) (key : String) (value : α) (bytes : List Nat)
    (commitOk : Bool) (a s : Nat)
    (h : (runSetLocked comp inst st key value bytes commitOk a s).result =
      .err .commit) : commitOk = false := by
  unfold runSetLocked at h
  cases commitOk
  · rfl
  · simp at h

theorem runSetLocked_commit_fail {α : Type} (comp inst : String)
    (st : AccState α) (key : String) (value : α) (bytes : List Nat) (a s : Nat) :
    runSetLocked comp inst st key value bytes false a s =
      ⟨.err .commit,
        ⟨st.version + 1 - 1,
          removeAssoc (insertAssoc st.cache (stateKeyName comp inst key) value)
            (stateKeyName comp inst key)⟩, a, s, true, 1,
        some [⟨stateKeyName comp inst key, bytes, none⟩,
          ⟨versionKeyName comp inst, natDecRepr (st.version + 1), none⟩]⟩ := rfl

theorem runBulkCritical_result_commit {α : Type} (comp inst : String)
    (st : AccState α) (items : List (String × α × Option Nat))
    (ser : List (String × List Nat × Option Nat)) (commitOk : Bool)
    (a s : Nat) (acq : Bool)
    (h : (runBulkCritical comp inst st items ser commitOk a s acq).result =
      .err .commit) :
    commitOk = false ∧
      (bulkFill (statePfxStr comp inst) items ser st.cache).1 = false := by
  unfold runBulkCritical at h
  cases hf : (bulkFill (statePfxStr comp inst) items ser st.cache).1 <;>
    cases commitOk <;> simp [hf] at h ⊢

theorem runBulkCritical_commit_fail {α : Type} (comp inst : String)
    (st : AccState α) (items : List (String × α × Option Nat))
    (ser : List (String × List Nat × Option Nat)) (a s : Nat) (acq : Bool)
    (hf : (bulkFill (statePfxStr comp inst) items ser st.cache).1 = false) :
    runBulkCritical comp inst st items ser false a s acq =
      ⟨.err .commit,
        ⟨st.version + 1 - 1,
          removeKeys (bulkFill (statePfxStr comp inst) items ser st.cache).2
            (items.map (fun p => stateKeyName comp inst p.1))⟩,
        a, s, acq, if acq then 1 else 0,
        some (ser.map (fun it => StoreWrite.mk it.1 it.2.1 it.2.2) ++
          [⟨versionKeyName comp inst, natDecRepr (st.version + 1), none⟩])⟩ := by
  simp only [runBulkCritical]
  rw [hf]
  rfl

/-- C2 (amended).  Rollback after a failed commit: the in-process version
counter is always restored exactly; the cache is restored exactly whenever
none of the keys written by the failed call had a cache entry before the
call (and, for `bulk_set`, the written keynames are pairwise distinct).
When a written key *was* cached before the call, the failed call evicts
that entry instead of restoring it — `claim_C2_counterexample` — so the
original byte-for-byte claim fails. -/
theorem claim_C2 {α : Type} (comp inst key : String) (value : α)
    (st : AccState α) (env : SetEnv) (items : List (String × α × Option Nat))
    (benv : BulkEnv α) (m : Bool) :
    ((runSet comp inst st key value env).result = .err .commit →
      (runSet comp inst st key value env).state.version = st.version ∧
      (lookupAssoc st.cache (stateKeyName comp inst key) = none →
        (runSet comp inst st key value env).state = st)) ∧
    ((runBulkSet comp inst st items m benv).result = .err .commit →
      (runBulkSet comp inst st items m benv).state.version = st.version ∧
      ((∀ p ∈ items, lookupAssoc st.cache (stateKeyName comp inst p.1) = none) →
        (items.map (fun p => stateKeyName comp inst p.1)).Nodup →
        (runBulkSet comp inst st items m benv).state = st)) := by
  constructor
  · intro h
    cases henc : env.encoded with
    | none =>
      rw [runSet_enc_none comp inst st key value env henc] at h
      exact absurd h (by simp)
    | some bytes =>
      rw [runSet_enc_some comp inst st key value env bytes henc] at h ⊢
      rcases hl : lockLoopRun env.lockOutcome maxLockAttempts 0 with ⟨r, a, s⟩
      cases r with
      | transportFail =>
        rw [runSetWithLock_transport comp inst st key value bytes _ _ a s hl] at h
        exact absurd h (by simp)
      | timedOut =>
        rw [runSetWithLock_timeout comp inst st key value bytes _ _ a s hl] at h
        exact absurd h (by simp)
      | got =>
        rw [runSetWithLock_got comp inst st key value bytes _ _ a s hl] at h ⊢
        have hco := runSetLocked_result_commit comp inst st key value bytes
          env.commitOk a s h
        rw [hco, runSetLocked_commit_fail comp inst st key value bytes a s]
        refine ⟨by simp, fun habs => ?_⟩
        show (⟨st.version + 1 - 1,
          removeAssoc (insertAssoc st.cache (stateKeyName comp inst key) value)
            (stateKeyName comp inst key)⟩ : AccState α) = st
        rw [removeAssoc_insertAssoc_of_absent st.cache (stateKeyName comp inst key)
          value habs]
        show (⟨st.version, st.cache⟩ : AccState α) = st
        rfl
  · intro h
    cases hp : preserialize comp inst benv.encode items with
    | none =>
      rw [runBulkSet_pre_none comp inst st items m benv hp] at h
      exact absurd h (by simp)
    | some ser =>
      rw [runBulkSet_pre_some comp inst st items m benv ser hp] at h ⊢
      have hkeys := preserialize_keys comp inst benv.encode items ser hp
      have main : ∀ a s acq,
          (runBulkCritical comp inst st items ser benv.commitOk a s acq).result =
            .err .commit →
          (runBulkCritical comp inst st items ser benv.commitOk a s acq).state.version =
            st.version ∧
          ((∀ p ∈ items, lookupAssoc st.cache (stateKeyName comp inst p.1) = none) →
            (items.map (fun p => stateKeyName comp inst p.1)).Nodup →
            (runBulkCritical comp inst st items ser benv.commitOk a s acq).state = st) := by
        intro a s acq hcr
        obtain ⟨hco, hf⟩ := runBulkCritical_result_commit comp inst st items ser
          benv.commitOk a s acq hcr
        rw [hco] at hcr ⊢
        rw [runBulkCritical_commit_fail comp inst st items ser a s acq hf]
        refine ⟨by simp, fun habs hnd => ?_⟩
        have habs2 : ∀ kn ∈ ser.map Prod.fst, lookupAssoc st.cache kn = none := by
          intro kn hkn
          rw [hkeys] at hkn
          obtain ⟨p, hpmem, hpk⟩ := List.mem_map.mp hkn
          rw [← hpk]
          exact habs p hpmem
        have hnd2 : (ser.map Prod.fst).Nodup := by rw [hkeys]; exact hnd
        obtain ⟨pairs, hfill, hpk⟩ :=
          bulkFill_append (statePfxStr comp inst) items ser st.cache hf habs2 hnd2
        show (⟨st.version + 1 - 1,
          removeKeys (bulkFill (statePfxStr comp inst) items ser st.cache).2
            (items.map (fun p => stateKeyName comp inst p.1))⟩ : AccState α) = st
        rw [hfill, ← hkeys, ← hpk,
          removeKeys_append pairs st.cache
            (by rw [hpk]; exact habs2) (by rw [hpk]; exact hnd2)]
        show (⟨st.version, st.cache⟩ : AccState α) = st
        rfl
      cases m with
      | true =>
        rw [if_pos rfl] at h ⊢
        exact main 0 0 false h
      | false =>
        rw [if_neg Bool.false_ne_true] at h ⊢
        rcases hl : lockLoopRun benv.lockOutcome maxLockAttempts 0 with ⟨r, a, s⟩
        cases r with
        | transportFail =>
          rw [runBulkWithLock_transport comp inst st items ser _ _ a s hl] at h
          exact absurd h (by simp)
        | timedOut =>
          rw [runBulkWithLock_timeout comp inst st items ser _ _ a s hl] at h
          exact absurd h (by simp)
        | got =>
          rw [runBulkWithLock_got comp inst st items ser _ _ a s hl] at h ⊢
          exact main a s true h

/-- C2 counterexample: a `set` whose key already has a cache entry, on a
forced commit failure, returns with the version restored but the cache
entry *gone* — the cache is not byte-for-byte identical to its pre-call
state, refuting the claim at this input. -/
theorem claim_C2_counterexample :
    (runSet "c" "i" (⟨5, [(stateKeyName "c" "i" "k", 7)]⟩ : AccState Nat) "k" 9
      ⟨some [57], fun _ => .acquired, false⟩).result = .err .commit ∧
    (runSet "c" "i" (⟨5, [(stateKeyName "c" "i" "k", 7)]⟩ : AccState Nat) "k" 9
      ⟨some [57], fun _ => .acquired, false⟩).state.version = 5 ∧
    (runSet "c" "i" (⟨5, [(stateKeyName "c" "i" "k", 7)]⟩ : AccState Nat) "k" 9
      ⟨some [57], fun _ => .acquired, false⟩).state.cache = [] ∧
    ([] : List (String × Nat)) ≠ [(stateKeyName "c" "i" "k", 7)] :=
  ⟨rfl, rfl, by decide, by simp⟩

/-- C2 witness: with the written key absent from the cache, a forced commit
failure restores the state exactly. -/
theorem claim_C2_witness :
    (runSet "c" "i" (⟨5, []⟩ : AccState Nat) "k" 9
      ⟨some [57], fun _ => .acquired, false⟩).result = .err .commit ∧
    (runSet "c" "i" (⟨5, []⟩ : AccState Nat) "k" 9
      ⟨some [57], fun _ => .acquired, false⟩).state = ⟨5, []⟩ :=
  ⟨rfl, ((claim_C2 "c" "i" "k" 9 ⟨5, []⟩ ⟨some [57], fun _ => .acquired, false⟩
    [] ⟨fun _ => some [], fun _ => .acquired, true⟩ false).1 rfl).2 rfl⟩

/-- `get` on a cache hit (unfolding lemma). -/
theorem runGet_hit {α : Type} (comp inst key : String) (st : AccState α)
    (env : GetEnv α) (v : α)
    (hv : lookupAssoc st.cache (stateKeyName comp inst key) = some v) :
    runGet comp inst st key env = ⟨.ok v, st, 0⟩ := by
  simp only [runGet]
  rw [hv]

/-- `get` on a cache miss whose store read finds data (unfolding lemma). -/
theorem runGet_miss_found {α : Type} (comp inst key : String) (st : AccState α)
    (env : GetEnv α) (data : List Nat)
    (hn : lookupAssoc st.cache (stateKeyName comp inst key) = none)
    (hs : env.store (stateKeyName comp inst key) = .found data) :
    runGet comp inst st key env =
      match env.decodeV data with
      | some v => ⟨.ok v, ⟨st.version,
          insertAssoc st.cache (stateKeyName comp inst key) v⟩, 1⟩
      | none => ⟨.err .decodeFail, st, 1⟩ := by
  simp only [runGet]
  rw [hn, hs]

/-- `get` on a cache miss whose store read finds nothing (unfolding
lemma). -/
theorem runGet_miss_missing {α : Type} (comp inst key : String)
    (st : AccState α) (env : GetEnv α)
    (hn : lookupAssoc st.cache (stateKeyName comp inst key) = none)
    (hs : env.store (stateKeyName comp inst key) = .missing) :
    runGet comp inst st key env = ⟨.err .keyNotFound, st, 1⟩ := by
  simp only [runGet]
  rw [hn, hs]

/-- `get` on a cache miss whose store read fails in transport (unfolding
lemma). -/
theorem runGet_miss_conn {α : Type} (comp inst key : String)
    (st : AccState α) (env : GetEnv α)
    (hn : lookupAssoc st.cache (stateKeyName comp inst key) = none)
    (hs : env.store (stateKeyName comp inst key) = .connErr) :
    runGet comp inst st key env = ⟨.err .storeConn, st, 1⟩ := by
  simp only [runGet]
  rw [hn, hs]

/-- **C7** — `get` semantics: a key whose fully-qualified form has a cache
entry is served from the cache with no store read and no state change; on a
miss the store is read exactly once, a hit that decodes populates the cache
with the decoded value before returning it, and a store read finding no
such key fails with the distinct missing-key error `keyNotFound` (not the
generic `storeConn` transport failure); in particular `get` of any key on
an empty namespace (empty cache, every store read missing) yields
`keyNotFound`. -/
theorem claim_C7 {α : Type} (comp inst key : String) (st : AccState α)
    (env : GetEnv α) :
    (∀ v, lookupAssoc st.cache (stateKeyName comp inst key) = some v →
      runGet comp inst st key env = ⟨.ok v, st, 0⟩) ∧
    (lookupAssoc st.cache (stateKeyName comp inst key) = none →
      (runGet comp inst st key env).storeReads = 1 ∧
      (∀ data v, env.store (stateKeyName comp inst key) = .found data →
        env.decodeV data = some v →
        runGet comp inst st key env =
          ⟨.ok v, ⟨st.version,
            insertAssoc st.cache (stateKeyName comp inst key) v⟩, 1⟩) ∧
      (env.store (stateKeyName comp inst key) = .missing →
        runGet comp inst st key env = ⟨.err .keyNotFound, st, 1⟩)) ∧
    (st.cache = [] → (∀ k, env.store k = .missing) →
      runGet comp inst st key env = ⟨.err .keyNotFound, st, 1⟩) ∧
    (GetRes.err .keyNotFound : GetRes α) ≠ .err .storeConn := by
  refine ⟨fun v hv => runGet_hit comp inst key st env v hv,
    fun hn => ⟨?_, fun data v hs hd => ?_,
      fun hs => runGet_miss_missing comp inst key st env hn hs⟩,
    fun hc hm => ?_, by simp⟩
  · cases hs : env.store (stateKeyName comp inst key) with
    | found data =>
      rw [runGet_miss_found comp inst key st env data hn hs]
      cases env.decodeV data with
      | some v => rfl
      | none => rfl
    | missing => rw [runGet_miss_missing comp inst key st env hn hs]
    | connErr => rw [runGet_miss_conn comp inst key st env hn hs]
  · rw [runGet_miss_found comp inst key st env data hn hs, hd]
  · have hn : lookupAssoc st.cache (stateKeyName comp inst key) = none := by
      rw [hc]
      simp only [lookupAssoc]
    exact runGet_miss_missing comp inst key st env hn
      (hm (stateKeyName comp inst key))

/-- C7 witness: on a state with empty cache and a store answering every
read with `missing`, `get` returns the missing-key error. -/
theorem claim_C7_witness :
    runGet "c" "i" (⟨0, []⟩ : AccState Nat) "missing"
      ⟨fun _ => .missing, fun _ => none⟩ = ⟨.err .keyNotFound, ⟨0, []⟩, 1⟩ :=
  (claim_C7 "c" "i" "missing" ⟨0, []⟩
    ⟨fun _ => .missing, fun _ => none⟩).2.2.1 rfl (fun _ => rfl)

/-- Whether `pat` occurs as a contiguous run somewhere in `s`
(`str::contains`). -/
def occurs (pat : List Char) : List Char → Bool
  | [] => pat.isEmpty
  | c :: rest => decide ((c :: rest).take pat.length = pat) || occurs pat rest

/-- One non-matching step of `str::replace`. -/
theorem replaceListAux_cons_ne (pat rep : List Char) (fuel : Nat) (c : Char)
    (rest : List Char)
    (h : ¬ ((c :: rest).take pat.length = pat)) :
    replaceListAux pat rep (fuel + 1) (c :: rest) =
      c :: replaceListAux pat rep fuel rest := by
  simp only [replaceListAux]
  rw [if_neg (fun hc => h hc.2)]

/-- One matching step of `str::replace`. -/
theorem replaceListAux_cons_eq (pat rep : List Char) (fuel : Nat) (c : Char)
    (rest : List Char) (hp : pat ≠ [])
    (h : (c :: rest).take pat.length = pat) :
    replaceListAux pat rep (fuel + 1) (c :: rest) =
      rep ++ replaceListAux pat rep fuel ((c :: rest).drop pat.length) := by
  simp only [replaceListAux]
  rw [if_pos ⟨hp, h⟩]

/-- `str::replace` leaves a string without an occurrence of the pattern
unchanged. -/
theorem replaceListAux_no_occ (pat rep : List Char) :
    ∀ fuel s, occurs pat s = false → s.length ≤ fuel →
      replaceListAux pat rep fuel s = s := by
  intro fuel
  induction fuel with
  | zero =>
    intro s _ _
    rfl
  | succ f ih =>
    intro s ho hlen
    cases s with
    | nil => rfl
    | cons c rest =>
      simp only [occurs, Bool.or_eq_false_iff, decide_eq_false_iff_not] at ho
      rw [replaceListAux_cons_ne pat rep f c rest ho.1]
      have hr : rest.length ≤ f := by
        simp only [List.length_cons] at hlen
        omega
      rw [ih rest ho.2 hr]

/-- `str::replace` consumes a match at the head and then scans only the
remainder: scanning restarts after the replaced region. -/
theorem replaceListAux_head_match (p0 : Char) (pt rep k : List Char)
    (fuel : Nat) :
    replaceListAux (p0 :: pt) rep (fuel + 1) (p0 :: (pt ++ k)) =
      rep ++ replaceListAux (p0 :: pt) rep fuel k := by
  have ht : (p0 :: (pt ++ k)).take (p0 :: pt).length = p0 :: pt := by
    simp only [List.length_cons, List.take_succ_cons]
    rw [List.take_left]
  have hd : (p0 :: (pt ++ k)).drop (p0 :: pt).length = k := by
    simp only [List.length_cons, List.drop_succ_cons]
    rw [List.drop_left]
  rw [replaceListAux_cons_eq (p0 :: pt) rep fuel p0 (pt ++ k) (by simp) ht,
    hd]

/-- `str::replace` of a single final character that occurs nowhere else
removes exactly that character. -/
theorem replaceListAux_strip_last (c : Char) :
    ∀ fuel s, c ∉ s → s.length + 2 ≤ fuel →
      replaceListAux [c] [] fuel (s ++ [c]) = s := by
  intro fuel
  induction fuel with
  | zero =>
    intro s _ h
    exact absurd h (by omega)
  | succ f ih =>
    intro s hc hlen
    cases s with
    | nil =>
      simp only [List.nil_append]
      rw [replaceListAux_cons_eq [c] [] f c [] (by simp) (by simp)]
      simp only [List.length_cons, List.length_nil, List.drop_succ_cons,
        List.drop_nil, List.nil_append]
      cases f with
      | zero => exact absurd hlen (by decide)
      | succ g => rfl
    | cons a s' =>
      simp only [List.cons_append]
      have hne : ¬ ((a :: (s' ++ [c])).take ([c] : List Char).length = [c]) := by
        simp only [List.length_cons, List.length_nil, List.take_succ_cons,
          List.take_zero]
        intro h
        rw [List.cons.injEq] at h
        have hmem : c ∈ a :: s' := by
          rw [← h.1]
          exact List.mem_cons_self a s'
        exact hc hmem
      rw [replaceListAux_cons_ne [c] [] f a (s' ++ [c]) hne]
      have hc' : c ∉ s' := fun h => hc (List.mem_cons_of_mem a h)
      have hl' : s'.length + 2 ≤ f := by
        simp only [List.length_cons] at hlen
        omega
      rw [ih s' hc' hl']

/-- Stripping the namespace prefix via `str::replace` from a
fully-qualified key recovers the caller key, provided the caller key never
contains the prefix itself. -/
theorem replaceAll_strip_pfx (pfx k : String) (hp : pfx.data ≠ [])
    (hk : occurs pfx.data k.data = false) :
    replaceAll (pfx ++ k) pfx emptyString = k := by
  obtain ⟨p0, pt, hpd⟩ : ∃ p0 pt, pfx.data = p0 :: pt := by
    cases h : pfx.data with
    | nil => exact absurd h hp
    | cons a b => exact ⟨a, b, rfl⟩
  unfold replaceAll
  rw [String.data_append, hpd]
  simp only [List.cons_append, List.length_cons, List.length_append]
  rw [replaceListAux_head_match]
  rw [hpd] at hk
  rw [replaceListAux_no_occ (p0 :: pt) emptyString.data
    (pt.length + k.data.length + 1) k.data hk (by omega)]
  have he : emptyString.data = ([] : List Char) := rfl
  rw [he, List.nil_append]

/-- `pattern.replace("*", "")` recovers the namespace prefix from the
enumeration pattern, provided the prefix holds no `*`. -/
theorem replaceAll_strip_star (pfx : String) (h : ('*' : Char) ∉ pfx.data) :
    replaceAll (pfx ++ starString) starString emptyString = pfx := by
  unfold replaceAll
  rw [String.data_append]
  have hs : starString.data = ['*'] := rfl
  have he : emptyString.data = ([] : List Char) := rfl
  rw [hs, he]
  rw [show (pfx.data ++ ['*']).length + 1 = pfx.data.length + 2 from by
    simp only [List.length_append, List.length_cons, List.length_nil]]
  rw [replaceListAux_strip_last '*' (pfx.data.length + 2) pfx.data h
    (by omega)]

/-- The namespace prefix contains no `*` when `component_name` and
`instance_id` contain none. -/
theorem statePfxStr_no_star (comp inst : String)
    (hc : ('*' : Char) ∉ comp.data) (hi : ('*' : Char) ∉ inst.data) :
    ('*' : Char) ∉ (statePfxStr comp inst).data := by
  unfold statePfxStr
  simp only [String.data_append, List.mem_append]
  rintro ((((h | h) | h) | h) | h)
  · exact absurd h (by decide)
  · exact hc h
  · exact absurd h (by decide)
  · exact hi h
  · exact absurd h (by decide)

/-- The namespace prefix is never the empty string. -/
theorem statePfxStr_data_ne_nil (comp inst : String) :
    (statePfxStr comp inst).data ≠ [] := by
  unfold statePfxStr
  simp only [String.data_append]
  intro h
  exact absurd (List.append_eq_nil.mp h).2 (by decide)

/-- **C8** (corrected) — enumeration with prefix stripping: when the
component and instance names hold no `*` and no stored caller key contains
the namespace prefix as a substring, `keys()` returns exactly the caller
keys of the enumerated fully-qualified keys, the prefix stripped from each.
The stripping is `key.replace(&replaced_pattern, "")`, which removes
*every* occurrence of the prefix, so — contrary to the claim's final
clause — a caller key that itself contains the namespace prefix pattern is
not returned verbatim (see the counterexample). -/
theorem claim_C8 (comp inst : String) (ks : List String)
    (hc : ('*' : Char) ∉ comp.data) (hi : ('*' : Char) ∉ inst.data)
    (hk : ∀ k ∈ ks, occurs (statePfxStr comp inst).data k.data = false) :
    runKeys comp inst (ks.map (fun k => stateKeyName comp inst k)) = ks := by
  simp only [runKeys]
  rw [replaceAll_strip_star (statePfxStr comp inst)
    (statePfxStr_no_star comp inst hc hi)]
  rw [List.map_map]
  have hmap : ∀ l : List String,
      (∀ k ∈ l, occurs (statePfxStr comp inst).data k.data = false) →
      l.map ((fun k => replaceAll k (statePfxStr comp inst) emptyString) ∘
        fun k => stateKeyName comp inst k) = l := by
    intro l
    induction l with
    | nil => intro _; rfl
    | cons k t iht =>
      intro hl
      simp only [List.map_cons, Function.comp_apply]
      have h1 : replaceAll (stateKeyName comp inst k) (statePfxStr comp inst)
          emptyString = k := by
        show replaceAll (statePfxStr comp inst ++ k) (statePfxStr comp inst)
          emptyString = k
        exact replaceAll_strip_pfx (statePfxStr comp inst) k
          (statePfxStr_data_ne_nil comp inst) (hl k (List.mem_cons_self k t))
      rw [h1, iht (fun x hx => hl x (List.mem_cons_of_mem k hx))]
  exact hmap ks hk

/-- C8 counterexample: the caller key `"MOTION_STATE:c__i/x"` — which
contains the namespace prefix pattern of component `"c"`, instance `"i"` —
is stored under the fully-qualified key with the prefix prepended, yet
`keys()` returns `"x"` for it: `str::replace` removed both occurrences of
the prefix, refuting the claim's every-caller-key clause at this input. -/
theorem claim_C8_counterexample :
    runKeys "c" "i" [stateKeyName "c" "i" "MOTION_STATE:c__i/x"] = ["x"] ∧
    ("x" : String) ≠ "MOTION_STATE:c__i/x" := by
  constructor
  · decide
  · decide

/-- C8 witness: two ordinary caller keys are returned exactly, prefix
stripped. -/
theorem claim_C8_witness :
    runKeys "c" "i" (["k1", "k2"].map (fun k => stateKeyName "c" "i" k)) =
      ["k1", "k2"] :=
  claim_C8 "c" "i" ["k1", "k2"] (by decide) (by decide) (by decide)
